import Mathlib

set_option maxRecDepth 10000

/-!
Verification of the tengu-init provisioning core.

This file is a shallow embedding of the `tengu-provision` step model
(`crates/tengu-provision/src/steps/*.rs`), the manifest assembler
(`manifest.rs`), the cloud-init renderer (`render/cloud_init.rs`) and the
remote execution driver (`crates/tengu-init/src/providers/baremetal.rs`),
together with proofs about them.

Modelling conventions:
* Rust `String`/`&str` values become Lean `String`; all string algorithms
  (substring search, splitting, trimming) are implemented over `String.data`
  so that every definition reduces in the kernel.
* The SHA-256 digest is abstracted as an injective tagging function
  (`sha256hex`); the development only relies on the digest being
  deterministic and collision-free.
* Shell execution is given a semantics over an abstract machine state
  (`SysState`); opaque caller-supplied command strings (the `RunCommand`
  step and custom check commands) are interpreted through an explicit
  environment (`CmdEnv`).
-/

namespace TenguInit

/-! ## Character and string utilities -/

/-- ASCII-alphabetic test, modelling Rust `char::is_ascii_alphabetic`. -/
def isAsciiAlpha (c : Char) : Bool :=
  (65 ≤ c.toNat && c.toNat ≤ 90) || (97 ≤ c.toNat && c.toNat ≤ 122)

/-- ASCII-digit test, modelling Rust `char::is_ascii_digit` (and the digit
acceptance of `usize::from_str`). -/
def isAsciiDigit (c : Char) : Bool :=
  48 ≤ c.toNat && c.toNat ≤ 57

/-- Whitespace test used by `str::trim`. Rust trims Unicode `White_Space`
characters; the provisioning wire protocol is ASCII, so we model the ASCII
subset (space, tab, line feed, vertical tab, form feed, carriage return). -/
def isWsChar (c : Char) : Bool :=
  c = ' ' || c = '\t' || c = '\n' || c = '\r' || c.toNat = 11 || c.toNat = 12

/-- Both-ends trim over a character list, modelling Rust `str::trim`. -/
def trimL (cs : List Char) : List Char :=
  ((cs.dropWhile isWsChar).reverse.dropWhile isWsChar).reverse

/-- Both-ends trim at the string level. -/
def trimStr (s : String) : String := ⟨trimL s.data⟩

/-- Substring occurrence test on character lists: does `n` occur inside `h`?
Models Rust `str::contains` with a string pattern. -/
def listContainsSub (n h : List Char) : Bool :=
  h.tails.any (fun t => n.isPrefixOf t)

/-- Substring occurrence test at the string level. -/
def strContains (hay needle : String) : Bool :=
  listContainsSub needle.data hay.data

theorem listContainsSub_iff (n h : List Char) :
    listContainsSub n h = true ↔ n <:+: h := by
  unfold listContainsSub
  rw [List.any_eq_true]
  constructor
  · rintro ⟨t, ht, hp⟩
    rw [List.mem_tails] at ht
    rw [List.isPrefixOf_iff_prefix] at hp
    exact List.infix_iff_prefix_suffix.mpr ⟨t, hp, ht⟩
  · intro hinf
    rcases List.infix_iff_prefix_suffix.mp hinf with ⟨t, hp, ht⟩
    exact ⟨t, (List.mem_tails t h).mpr ht, List.isPrefixOf_iff_prefix.mpr hp⟩

theorem strContains_iff (hay needle : String) :
    strContains hay needle = true ↔ needle.data <:+: hay.data :=
  listContainsSub_iff _ _

/-- A string occurs in any extension of itself on both sides. -/
theorem strContains_of_parts (pre mid suf : String) :
    strContains (pre ++ mid ++ suf) mid = true := by
  rw [strContains_iff]
  exact ⟨pre.data, suf.data, rfl⟩

/-- Substring occurrence survives appending on the right. -/
theorem strContains_append_right (hay t needle : String)
    (h : strContains hay needle = true) :
    strContains (hay ++ t) needle = true := by
  rw [strContains_iff] at h ⊢
  exact h.trans ⟨[], t.data, by simp⟩

/-- Two strings are equal when their character lists are. -/
theorem strEq_of_data {s t : String} (h : s.data = t.data) : s = t := by
  cases s; cases t; exact congrArg String.mk h

/-- Splitting off everything before the first occurrence of a separator
character. Returns `none` when the separator does not occur. -/
def splitOnceL (sep : Char) : List Char → Option (List Char × List Char)
  | [] => none
  | c :: cs =>
    if c = sep then some ([], cs)
    else
      match splitOnceL sep cs with
      | none => none
      | some (a, b) => some (c :: a, b)

theorem splitOnceL_eq_none_iff (sep : Char) (cs : List Char) :
    splitOnceL sep cs = none ↔ sep ∉ cs := by
  induction cs with
  | nil => simp [splitOnceL]
  | cons c cs ih =>
    by_cases hc : c = sep
    · subst hc; simp [splitOnceL]
    · simp only [splitOnceL, if_neg hc]
      cases hsplit : splitOnceL sep cs with
      | none => simp [hsplit, List.mem_cons, Ne.symm hc, ← ih]
      | some p =>
        simp only [List.mem_cons]
        constructor
        · intro h; cases h
        · intro h
          exfalso
          have : sep ∉ cs := fun hm => h (Or.inr hm)
          rw [← ih] at this
          rw [this] at hsplit
          cases hsplit

theorem splitOnceL_eq_some_iff (sep : Char) (cs : List Char) :
    ∀ a b : List Char,
      splitOnceL sep cs = some (a, b) ↔ cs = a ++ sep :: b ∧ sep ∉ a := by
  induction cs with
  | nil =>
    intro a b
    constructor
    · intro h; simp [splitOnceL] at h
    · rintro ⟨h, -⟩; cases a <;> simp at h
  | cons c cs ih =>
    intro a b
    by_cases hc : c = sep
    · subst hc
      simp only [splitOnceL, if_pos rfl]
      constructor
      · intro h
        injection h with hpair
        injection hpair with h1 h2
        subst h1
        exact ⟨by simp [h2], by simp⟩
      · rintro ⟨heq, hmem⟩
        cases a with
        | nil =>
          simp only [List.nil_append, List.cons.injEq] at heq
          simp [heq.2]
        | cons x xs =>
          simp only [List.cons_append, List.cons.injEq] at heq
          exact absurd (heq.1 ▸ List.mem_cons_self x xs) (heq.1 ▸ hmem)
    · simp only [splitOnceL, if_neg hc]
      cases hsplit : splitOnceL sep cs with
      | none =>
        constructor
        · intro h; cases h
        · rintro ⟨heq, hmem⟩
          cases a with
          | nil =>
            simp only [List.nil_append, List.cons.injEq] at heq
            exact absurd heq.1 hc
          | cons x xs =>
            simp only [List.cons_append, List.cons.injEq] at heq
            have h2 : splitOnceL sep cs = some (xs, b) :=
              (ih xs b).mpr ⟨heq.2, fun hm => hmem (List.mem_cons_of_mem _ hm)⟩
            rw [h2] at hsplit; cases hsplit
      | some p =>
        obtain ⟨pa, pb⟩ := p
        have hps := (ih pa pb).mp hsplit
        simp only [Option.some.injEq, Prod.mk.injEq]
        constructor
        · rintro ⟨ha, hb⟩
          subst hb
          refine ⟨?_, ?_⟩
          · rw [← ha]; simp [hps.1]
          · rw [← ha]
            simp only [List.mem_cons, not_or]
            exact ⟨fun he => hc he.symm, hps.2⟩
        · rintro ⟨heq, hmem⟩
          cases a with
          | nil =>
            simp only [List.nil_append, List.cons.injEq] at heq
            exact absurd heq.1 hc
          | cons x xs =>
            simp only [List.cons_append, List.cons.injEq] at heq
            have h2 : splitOnceL sep cs = some (xs, b) :=
              (ih xs b).mpr ⟨heq.2, fun hm => hmem (List.mem_cons_of_mem _ hm)⟩
            rw [h2] at hsplit
            injection hsplit with hpair
            injection hpair with h1 h2'
            exact ⟨by rw [heq.1, h1], h2'.symm⟩

/-- Bounded split, modelling Rust `str::splitn(n, sep)` collected to a
vector: at most `n` pieces, the last one keeping any remaining separators. -/
def splitnL : Nat → Char → List Char → List (List Char)
  | 0, _, _ => []
  | 1, _, cs => [cs]
  | n + 2, sep, cs =>
    match splitOnceL sep cs with
    | none => [cs]
    | some (a, b) => a :: splitnL (n + 1) sep b

/-- Removal of at most one leading `+` sign, as accepted by
`usize::from_str`. -/
def stripPlus (cs : List Char) : List Char :=
  match cs with
  | [] => []
  | c :: r => if c = '+' then r else c :: r

/-- Numeric parse modelling Rust `usize::from_str` on 64-bit targets:
an optional leading `+`, then one or more ASCII digits, rejecting values
that overflow `2^64`. -/
def parseUsizeL (cs : List Char) : Option Nat :=
  let ds := stripPlus cs
  if ds ≠ [] ∧ ds.all isAsciiDigit then
    let v := ds.foldl (fun a c => a * 10 + (c.toNat - 48)) 0
    if v < 2 ^ 64 then some v else none
  else none

/-- Numeric parse at the string level. -/
def parseUsize (s : String) : Option Nat := parseUsizeL s.data

theorem colon_mem_stripPlus {cs : List Char} (h : ':' ∈ cs) :
    ':' ∈ stripPlus cs := by
  cases cs with
  | nil => cases h
  | cons c r =>
    by_cases hp : c = '+'
    · subst hp
      rw [stripPlus, if_pos rfl]
      rcases List.mem_cons.mp h with h1 | h1
      · exact absurd h1 (by decide)
      · exact h1
    · rw [stripPlus, if_neg hp]
      exact h

theorem parseUsizeL_no_colon {cs : List Char}
    (h : (parseUsizeL cs).isSome = true) : ':' ∉ cs := by
  intro hmem
  unfold parseUsizeL at h
  by_cases hds : stripPlus cs ≠ [] ∧ (stripPlus cs).all isAsciiDigit
  · have hall := hds.2
    simp only [List.all_eq_true] at hall
    have := hall _ (colon_mem_stripPlus hmem)
    exact absurd this (by decide)
  · rw [if_neg hds] at h
    cases h

/-- Consecutive-duplicate removal, modelling Rust `Vec::dedup`. -/
def dedupConsec : List String → List String
  | [] => []
  | [a] => [a]
  | a :: b :: rest =>
    if a = b then dedupConsec (b :: rest) else a :: dedupConsec (b :: rest)

theorem dedupConsec_subset (l : List String) : dedupConsec l ⊆ l := by
  induction l with
  | nil => simp [dedupConsec]
  | cons a l ih =>
    cases l with
    | nil => simp [dedupConsec]
    | cons b rest =>
      intro x hx
      by_cases hab : a = b
      · rw [dedupConsec, if_pos hab] at hx
        exact List.mem_cons_of_mem _ (ih hx)
      · rw [dedupConsec, if_neg hab] at hx
        rcases List.mem_cons.mp hx with hx1 | hx1
        · exact hx1 ▸ List.mem_cons_self _ _
        · exact List.mem_cons_of_mem _ (ih hx1)

theorem dedupConsec_sorted_lt (l : List String) (h : l.Sorted (· ≤ ·)) :
    (dedupConsec l).Sorted (· < ·) := by
  induction l with
  | nil => simp [dedupConsec]
  | cons a l ih =>
    cases l with
    | nil => simp [dedupConsec]
    | cons b rest =>
      rw [List.sorted_cons] at h
      by_cases hab : a = b
      · simpa [dedupConsec, hab] using ih h.2
      · rw [show dedupConsec (a :: b :: rest) =
            a :: dedupConsec (b :: rest) by simp [dedupConsec, hab]]
        rw [List.sorted_cons]
        refine ⟨fun x hx => ?_, ih h.2⟩
        have hxmem := dedupConsec_subset _ hx
        have hab' : a < b := lt_of_le_of_ne (h.1 b (by simp)) hab
        rcases List.mem_cons.mp hxmem with hx1 | hx1
        · exact hx1 ▸ hab'
        · have hb := List.sorted_cons.mp h.2
          exact lt_of_lt_of_le hab' (hb.1 x hx1)

theorem dedupConsec_nodup (l : List String) (h : l.Sorted (· ≤ ·)) :
    (dedupConsec l).Nodup :=
  (dedupConsec_sorted_lt l h).nodup

theorem dedupConsec_sorted_le (l : List String) (h : l.Sorted (· ≤ ·)) :
    (dedupConsec l).Sorted (· ≤ ·) :=
  (dedupConsec_sorted_lt l h).imp (fun hab => le_of_lt hab)

/-- Directory part of a path: everything before the final `/` (the shell
`dirname` invoked by the write-file step). -/
def dirnameStr (p : String) : String :=
  match splitOnceL '/' p.data.reverse with
  | none => "."
  | some (_, rest) => if rest = [] then "/" else ⟨rest.reverse⟩

/-- Separator join, modelling Rust `[String]::join`. -/
def joinSep (sep : String) : List String → String
  | [] => ""
  | [a] => a
  | a :: rest => a ++ sep ++ joinSep sep rest

/-- Shell single-quote escaping of SSH keys, modelling
`key.replace('\'', "'\\''")` from `EnsureUser::to_bash`. -/
def escapeQuote (s : String) : String :=
  ⟨s.data.foldr (fun c acc =>
    if c = '\'' then '\'' :: '\\' :: '\'' :: '\'' :: acc else c :: acc) []⟩

/-! ## The SHA-256 digest abstraction -/

/-- SHA-256 hex digest of a string, as computed by `WriteFile::content_hash`.
Modelling note: the real digest is a fixed-width hex code; this development
only uses that the digest function is deterministic and collision-free, so it
is modelled as an injective tagging function. -/
def sha256hex (s : String) : String := "sha256-" ++ s

theorem sha256hex_inj {a b : String} (h : sha256hex a = sha256hex b) :
    a = b := by
  unfold sha256hex at h
  have := congrArg String.data h
  simp only [String.data_append] at this
  exact strEq_of_data (List.append_cancel_left this)

theorem sha256hex_append_newline_ne (c : String) :
    sha256hex (c ++ "\n") ≠ sha256hex c := by
  intro h
  have h2 := congrArg (fun s : String => s.data.length) (sha256hex_inj h)
  simp only [String.data_append, List.length_append] at h2
  have h3 : c.data.length + 1 = c.data.length := by
    simp only [show ("\n".data : List Char).length = 1 from rfl] at h2
    exact h2
  omega

/-! ## Cloud-init fragments (`steps/mod.rs`) -/

/-- A file record inside a cloud-init fragment (`CloudInitFile`). -/
structure CloudInitFile where
  path : String
  content : String
  permissions : Option String
  owner : Option String
deriving DecidableEq

/-- Partial contribution of one step to the cloud-init document
(`CloudInitFragment`). -/
structure CloudInitFragment where
  packages : List String := []
  write_files : List CloudInitFile := []
  runcmd : List String := []
deriving DecidableEq

/-! ## Step variants (`steps/*.rs`), embedded with their exact rendered
command strings. Rust line-continuation escapes inside `format!` strings are
already resolved to the single-line text they produce. -/

/-- The write-file step (`steps/file.rs`). -/
structure WriteFile where
  path : String
  content : String
  permissions : Option String
  owner : Option String
  description : String
deriving DecidableEq

def WriteFile.new (path content : String) : WriteFile :=
  ⟨path, content, none, none, "Write " ++ path⟩

def WriteFile.with_permissions (w : WriteFile) (perms : String) : WriteFile :=
  { w with permissions := some perms }

def WriteFile.with_owner (w : WriteFile) (owner : String) : WriteFile :=
  { w with owner := some owner }

/-- SHA-256 of the configured content, hex-encoded
(`WriteFile::content_hash`). -/
def WriteFile.content_hash (w : WriteFile) : String := sha256hex w.content

/-- Heredoc delimiter choice (`WriteFile::heredoc_delimiter`): nested
containment tests over the three candidate delimiters. -/
def WriteFile.heredoc_delimiter (w : WriteFile) : String :=
  if strContains w.content "TENGU_EOF" then
    if strContains w.content "__TENGU_FILE_END__" then
      "__FILE_CONTENT_END_MARKER__"
    else
      "__TENGU_FILE_END__"
  else
    "TENGU_EOF"

def WriteFile.to_cloud_init (w : WriteFile) : CloudInitFragment :=
  { write_files := [⟨w.path, w.content, w.permissions, w.owner⟩] }

def WriteFile.to_bash (w : WriteFile) : List String :=
  ["mkdir -p \"$(dirname '" ++ w.path ++ "')\"",
   "CURRENT=$(sha256sum '" ++ w.path ++
     "' 2>/dev/null | cut -d' ' -f1 || echo 'none')\nif [ \"$CURRENT\" != \"" ++
     w.content_hash ++ "\" ]; then\n    cat > '" ++ w.path ++ "' << '" ++
     w.heredoc_delimiter ++ "'\n" ++ w.content ++ "\n" ++
     w.heredoc_delimiter ++ "\nfi"]
  ++ (w.permissions.elim [] fun p => ["chmod " ++ p ++ " '" ++ w.path ++ "'"])
  ++ (w.owner.elim [] fun o => ["chown " ++ o ++ " '" ++ w.path ++ "'"])

def WriteFile.check_command (w : WriteFile) : Option String :=
  some ("[ -f '" ++ w.path ++ "' ] && [ \"$(sha256sum '" ++ w.path ++
    "' | cut -d' ' -f1)\" = \"" ++ w.content_hash ++ "\" ]")

/-- External apt repository data (`steps/package.rs`). -/
structure Repository where
  key_url : String
  repo_line : String
  keyring_path : String
deriving DecidableEq

def Repository.docker : Repository :=
  ⟨"https://download.docker.com/linux/ubuntu/gpg",
   "deb [arch=$(dpkg --print-architecture) signed-by=/usr/share/keyrings/docker-archive-keyring.gpg] https://download.docker.com/linux/ubuntu $(lsb_release -cs) stable",
   "/usr/share/keyrings/docker-archive-keyring.gpg"⟩

def Repository.postgresql : Repository :=
  ⟨"https://www.postgresql.org/media/keys/ACCC4CF8.asc",
   "deb [signed-by=/usr/share/keyrings/postgresql-archive-keyring.gpg] https://apt.postgresql.org/pub/repos/apt $(lsb_release -cs)-pgdg main",
   "/usr/share/keyrings/postgresql-archive-keyring.gpg"⟩

/-- Apt package installation step (`InstallPackage`). -/
structure InstallPackage where
  name : String
  repository : Option Repository
  description : String
deriving DecidableEq

def InstallPackage.new (name : String) : InstallPackage :=
  ⟨name, none, "Install " ++ name⟩

def InstallPackage.with_repository (p : InstallPackage) (r : Repository) :
    InstallPackage :=
  { p with repository := some r }

def InstallPackage.to_cloud_init (p : InstallPackage) : CloudInitFragment :=
  { packages := [p.name]
    runcmd :=
      p.repository.elim [] fun r =>
        ["curl -fsSL " ++ r.key_url ++ " | gpg --dearmor -o " ++ r.keyring_path,
         "echo '" ++ r.repo_line ++ "' > /etc/apt/sources.list.d/" ++
           p.name ++ ".list",
         "apt-get update"] }

def InstallPackage.to_bash (p : InstallPackage) : List String :=
  (p.repository.elim [] fun r =>
    ["if [ ! -f " ++ r.keyring_path ++ " ]; then curl -fsSL " ++ r.key_url ++
       " | gpg --dearmor -o " ++ r.keyring_path ++ "; fi",
     "if ! grep -q '" ++ r.repo_line ++
       "' /etc/apt/sources.list.d/*.list 2>/dev/null; then echo '" ++
       r.repo_line ++ "' > /etc/apt/sources.list.d/" ++ p.name ++
       ".list; apt-get update; fi"])
  ++ ["dpkg -s " ++ p.name ++ " >/dev/null 2>&1 || apt-get install -y " ++
       p.name]

def InstallPackage.check_command (p : InstallPackage) : Option String :=
  some ("dpkg -s " ++ p.name ++ " >/dev/null 2>&1")

/-- Install-a-deb-from-URL step (`InstallDebFromUrl`). -/
structure InstallDebFromUrl where
  name : String
  url_template : String
  custom_check : Option String
  description : String
deriving DecidableEq

def InstallDebFromUrl.new (name url_template : String) : InstallDebFromUrl :=
  ⟨name, url_template, none, "Install " ++ name ++ " from URL"⟩

def InstallDebFromUrl.with_check (d : InstallDebFromUrl) (check : String) :
    InstallDebFromUrl :=
  { d with custom_check := some check }

def InstallDebFromUrl.ollama : InstallDebFromUrl :=
  (InstallDebFromUrl.new "ollama"
    "https://github.com/ollama/ollama/releases/latest/download/ollama-linux-\x7barch\x7d.deb").with_check
    "command -v ollama >/dev/null 2>&1"

def InstallDebFromUrl.tengu_caddy : InstallDebFromUrl :=
  InstallDebFromUrl.new "tengu-caddy"
    "https://github.com/saiden-dev/tengu-caddy/releases/latest/download/tengu-caddy_\x7barch\x7d.deb"

def InstallDebFromUrl.to_cloud_init (d : InstallDebFromUrl) :
    CloudInitFragment :=
  { runcmd :=
      ["if ! " ++
         (d.custom_check.getD ("dpkg -s " ++ d.name ++ " >/dev/null 2>&1")) ++
         "; then\n    ARCH=$(dpkg --print-architecture)\n    URL=$(echo '" ++
         d.url_template ++
         "' | sed \"s/\x7b\x7barch\x7d\x7d/$ARCH/g\")\n    wget -q \"$URL\" -O /tmp/" ++
         d.name ++ ".deb\n    dpkg -i /tmp/" ++ d.name ++
         ".deb || apt-get install -f -y\n    rm -f /tmp/" ++ d.name ++
         ".deb\nfi"] }

def InstallDebFromUrl.to_bash (d : InstallDebFromUrl) : List String :=
  ["ARCH=$(dpkg --print-architecture)\nURL=$(echo '" ++ d.url_template ++
     "' | sed \"s/\x7b\x7barch\x7d\x7d/$ARCH/g\")\nwget -q \"$URL\" -O /tmp/" ++
     d.name ++ ".deb\ndpkg -i /tmp/" ++ d.name ++
     ".deb || apt-get install -f -y\nrm -f /tmp/" ++ d.name ++ ".deb"]

def InstallDebFromUrl.check_command (d : InstallDebFromUrl) : Option String :=
  match d.custom_check with
  | some c => some c
  | none => some ("dpkg -s " ++ d.name ++ " >/dev/null 2>&1")

/-- Ensure-directory step (`steps/directory.rs`). -/
structure EnsureDirectory where
  path : String
  permissions : Option String
  owner : Option String
  description : String
deriving DecidableEq

def EnsureDirectory.new (path : String) : EnsureDirectory :=
  ⟨path, none, none, "Ensure directory " ++ path⟩

def EnsureDirectory.with_permissions (d : EnsureDirectory) (perms : String) :
    EnsureDirectory :=
  { d with permissions := some perms }

def EnsureDirectory.with_owner (d : EnsureDirectory) (owner : String) :
    EnsureDirectory :=
  { d with owner := some owner }

def EnsureDirectory.to_bash (d : EnsureDirectory) : List String :=
  ["mkdir -p " ++ d.path]
  ++ (d.permissions.elim [] fun p => ["chmod " ++ p ++ " " ++ d.path])
  ++ (d.owner.elim [] fun o => ["chown " ++ o ++ " " ++ d.path])

def EnsureDirectory.to_cloud_init (d : EnsureDirectory) : CloudInitFragment :=
  { runcmd := d.to_bash }

def EnsureDirectory.check_command (d : EnsureDirectory) : Option String :=
  some ("[ -d " ++ d.path ++ " ]")

/-- Ensure-service step (`steps/service.rs`). -/
structure EnsureService where
  name : String
  enabled : Bool
  started : Bool
  description : String
deriving DecidableEq

def EnsureService.new (name : String) : EnsureService :=
  ⟨name, true, true, "Ensure service " ++ name⟩

def EnsureService.to_bash (s : EnsureService) : List String :=
  (if s.enabled then
    ["systemctl is-enabled " ++ s.name ++ " >/dev/null 2>&1 || systemctl enable " ++ s.name]
   else []) ++
  (if s.started then
    ["systemctl is-active " ++ s.name ++ " >/dev/null 2>&1 || systemctl start " ++ s.name]
   else [])

def EnsureService.to_cloud_init (s : EnsureService) : CloudInitFragment :=
  { runcmd := s.to_bash }

def EnsureService.check_command (s : EnsureService) : Option String :=
  if s.started then
    some ("systemctl is-active " ++ s.name ++ " >/dev/null 2>&1")
  else if s.enabled then
    some ("systemctl is-enabled " ++ s.name ++ " >/dev/null 2>&1")
  else none

/-- Ensure-user step (`steps/user.rs`). -/
structure EnsureUser where
  name : String
  groups : List String
  shell : String
  «sudo» : Option String
  ssh_keys : List String
  description : String
deriving DecidableEq

def EnsureUser.new (name : String) : EnsureUser :=
  ⟨name, [], "/bin/bash", none, [], "Ensure user " ++ name ++ " exists"⟩

def EnsureUser.with_groups (u : EnsureUser) (groups : List String) :
    EnsureUser :=
  { u with groups := groups }

def EnsureUser.with_sudo (u : EnsureUser) (s : String) : EnsureUser :=
  { u with «sudo» := some s }

def EnsureUser.with_ssh_keys (u : EnsureUser) (keys : List String) :
    EnsureUser :=
  { u with ssh_keys := keys }

def EnsureUser.to_bash (u : EnsureUser) : List String :=
  ["id " ++ u.name ++ " >/dev/null 2>&1 || useradd -m -s " ++ u.shell ++
     " " ++ u.name]
  ++ (if u.groups.isEmpty then [] else
      ["for g in " ++ joinSep " " u.groups ++
         "; do getent group $g >/dev/null && usermod -aG $g " ++ u.name ++
         " 2>/dev/null || true; done"])
  ++ (u.«sudo».elim [] fun sd =>
      ["echo '" ++ u.name ++ " " ++ sd ++ "' > /etc/sudoers.d/" ++ u.name ++
         " && chmod 440 /etc/sudoers.d/" ++ u.name])
  ++ (if u.ssh_keys.isEmpty then [] else
      ["mkdir -p /home/" ++ u.name ++ "/.ssh && chmod 700 /home/" ++ u.name ++
         "/.ssh"]
      ++ u.ssh_keys.map (fun key =>
          "grep -qF '" ++ escapeQuote key ++ "' /home/" ++ u.name ++
            "/.ssh/authorized_keys 2>/dev/null || echo '" ++ escapeQuote key ++
            "' >> /home/" ++ u.name ++ "/.ssh/authorized_keys")
      ++ ["chmod 600 /home/" ++ u.name ++
            "/.ssh/authorized_keys && chown -R " ++ u.name ++ ":" ++ u.name ++
            " /home/" ++ u.name ++ "/.ssh"])

def EnsureUser.to_cloud_init (u : EnsureUser) : CloudInitFragment :=
  { runcmd := u.to_bash }

def EnsureUser.check_command (u : EnsureUser) : Option String :=
  some ("id " ++ u.name ++ " >/dev/null 2>&1")

/-- One UFW allow rule (`steps/firewall.rs`). -/
structure UfwRule where
  allow : String
deriving DecidableEq

/-- Ensure-firewall step (`EnsureFirewall`). -/
structure EnsureFirewall where
  rules : List UfwRule
  default_incoming : String
  default_outgoing : String
  description : String
deriving DecidableEq

def EnsureFirewall.new : EnsureFirewall :=
  ⟨[], "deny", "allow", "Configure firewall"⟩

def EnsureFirewall.allow (f : EnsureFirewall) (port : String) :
    EnsureFirewall :=
  { f with rules := f.rules ++ [⟨port⟩] }

def EnsureFirewall.to_bash (f : EnsureFirewall) : List String :=
  ["ufw default " ++ f.default_incoming ++ " incoming",
   "ufw default " ++ f.default_outgoing ++ " outgoing"]
  ++ f.rules.map (fun r => "ufw allow " ++ r.allow)
  ++ ["ufw status | grep -q 'Status: active' || ufw --force enable"]

def EnsureFirewall.to_cloud_init (f : EnsureFirewall) : CloudInitFragment :=
  { runcmd := f.to_bash }

def EnsureFirewall.check_command (_ : EnsureFirewall) : Option String :=
  some "ufw status | grep -q 'Status: active'"

/-- Arbitrary guarded command step (`steps/command.rs`). The Rust field
`unless` is a reserved word in Lean, hence the `unless_cmd` name. -/
structure RunCommand where
  description : String
  command : String
  unless_cmd : Option String
deriving DecidableEq

def RunCommand.new (description command : String) : RunCommand :=
  ⟨description, command, none⟩

def RunCommand.unless (r : RunCommand) (check : String) : RunCommand :=
  { r with unless_cmd := some check }

def RunCommand.to_bash (r : RunCommand) : List String :=
  match r.unless_cmd with
  | some u => [u ++ " || \x7b " ++ r.command ++ "; \x7d"]
  | none => [r.command]

def RunCommand.to_cloud_init (r : RunCommand) : CloudInitFragment :=
  { runcmd := r.to_bash }

def RunCommand.check_command (r : RunCommand) : Option String := r.unless_cmd

/-- The closed set of step variants: models the trait objects
`Box<dyn Step>` stored by the manifest. -/
inductive StepV where
  | writeFile : WriteFile → StepV
  | installPackage : InstallPackage → StepV
  | installDebFromUrl : InstallDebFromUrl → StepV
  | ensureDirectory : EnsureDirectory → StepV
  | ensureService : EnsureService → StepV
  | ensureUser : EnsureUser → StepV
  | ensureFirewall : EnsureFirewall → StepV
  | runCommand : RunCommand → StepV
deriving DecidableEq

def StepV.description : StepV → String
  | .writeFile w => w.description
  | .installPackage p => p.description
  | .installDebFromUrl d => d.description
  | .ensureDirectory d => d.description
  | .ensureService s => s.description
  | .ensureUser u => u.description
  | .ensureFirewall f => f.description
  | .runCommand r => r.description

def StepV.to_bash : StepV → List String
  | .writeFile w => w.to_bash
  | .installPackage p => p.to_bash
  | .installDebFromUrl d => d.to_bash
  | .ensureDirectory d => d.to_bash
  | .ensureService s => s.to_bash
  | .ensureUser u => u.to_bash
  | .ensureFirewall f => f.to_bash
  | .runCommand r => r.to_bash

def StepV.to_cloud_init : StepV → CloudInitFragment
  | .writeFile w => w.to_cloud_init
  | .installPackage p => p.to_cloud_init
  | .installDebFromUrl d => d.to_cloud_init
  | .ensureDirectory d => d.to_cloud_init
  | .ensureService s => s.to_cloud_init
  | .ensureUser u => u.to_cloud_init
  | .ensureFirewall f => f.to_cloud_init
  | .runCommand r => r.to_cloud_init

def StepV.check_command : StepV → Option String
  | .writeFile w => w.check_command
  | .installPackage p => p.check_command
  | .installDebFromUrl d => d.check_command
  | .ensureDirectory d => d.check_command
  | .ensureService s => s.check_command
  | .ensureUser u => u.check_command
  | .ensureFirewall f => f.check_command
  | .runCommand r => r.check_command

/-! ## Configuration (`config.rs`) -/

/-- Resolved installation parameters (`TenguConfig`). -/
structure TenguConfig where
  user : String
  domain_platform : String
  domain_apps : String
  cf_api_key : String
  cf_email : String
  resend_api_key : String
  notify_email : String
  ssh_keys : List String
  release : String
deriving DecidableEq

/-- Text of the generated fail2ban configuration
(`TenguConfig::fail2ban_config`). -/
def TenguConfig.fail2ban_config (_ : TenguConfig) : String :=
  "[sshd]\nenabled = true\nport = ssh\nfilter = sshd\nlogpath = /var/log/auth.log\nmaxretry = 3\nbantime = 3600\nfindtime = 600\n"

/-- Text of the generated `/etc/tengu/config.toml`
(`TenguConfig::tengu_config_toml`). -/
def TenguConfig.tengu_config_toml (c : TenguConfig) : String :=
  "# Tengu PaaS Configuration\ndomain = \"" ++ c.domain_apps ++
  "\"\n\n[cloudflare]\napi_key = \"" ++ c.cf_api_key ++
  "\"\nemail = \"" ++ c.cf_email ++
  "\"\n\n[cloudflare.domains]\nplatform = \"" ++ c.domain_platform ++
  "\"\napps = \"" ++ c.domain_apps ++
  "\"\n\n[cloudflare.services]\napi = \"api." ++ c.domain_platform ++
  "\"\ndocs = \"docs." ++ c.domain_platform ++
  "\"\ngit = \"git." ++ c.domain_platform ++
  "\"\nssh = \"ssh." ++ c.domain_platform ++ "\"\n"

/-- Text of the generated Caddyfile (`TenguConfig::caddyfile`). -/
def TenguConfig.caddyfile (c : TenguConfig) : String :=
  "\x7b\n    email " ++ c.cf_email ++
  "\n\x7d\n\nimport sites/*.caddy\n\napi." ++ c.domain_platform ++
  " \x7b\n    reverse_proxy localhost:8080\n\x7d\n\ndocs." ++
  c.domain_platform ++
  " \x7b\n    reverse_proxy localhost:8080\n\x7d\n\ngit." ++
  c.domain_platform ++
  " \x7b\n    reverse_proxy localhost:8080\n\x7d\n"

/-! ## Manifest (`manifest.rs`) -/

/-- Ordered step sequence plus environment metadata (`Manifest`). -/
structure Manifest where
  hostname : String
  fqdn : Option String
  timezone : String
  locale : String
  steps : List StepV

/-- URL template for the final tengu `.deb` (from `Manifest::tengu`,
phase 11). -/
def tengu_deb_url (c : TenguConfig) : String :=
  if c.release = "" then
    "https://github.com/saiden-dev/tengu/releases/latest/download/tengu_\x7barch\x7d.deb"
  else
    "https://github.com/saiden-dev/tengu/releases/download/" ++ c.release ++
      "/tengu_\x7barch\x7d.deb"

/-- The base package names of phase 2 of `Manifest::tengu`. -/
def base_packages : List String :=
  ["curl", "wget", "git", "jq", "htop", "vim", "fail2ban", "ufw",
   "ca-certificates", "gnupg", "lsb-release", "unzip"]

/-- The complete Tengu installation manifest (`Manifest::tengu`): the
fixed step catalog, in declaration order, for a given configuration. -/
def Manifest.tengu (c : TenguConfig) : Manifest :=
  { hostname := "tengu"
    fqdn := some ("api." ++ c.domain_platform)
    timezone := "UTC"
    locale := "en_US.UTF-8"
    steps :=
      [StepV.ensureUser
        ((((EnsureUser.new c.user).with_groups ["docker", "sudo"]).with_sudo
          "ALL=(ALL) NOPASSWD:ALL").with_ssh_keys c.ssh_keys)]
      ++ base_packages.map (fun p => StepV.installPackage (InstallPackage.new p))
      ++ [StepV.installPackage
            ((InstallPackage.new "docker-ce").with_repository Repository.docker),
          StepV.installPackage (InstallPackage.new "docker-ce-cli"),
          StepV.installPackage (InstallPackage.new "containerd.io"),
          StepV.installPackage (InstallPackage.new "docker-compose-plugin"),
          StepV.installPackage
            ((InstallPackage.new "postgresql-16").with_repository
              Repository.postgresql),
          StepV.installPackage (InstallPackage.new "postgresql-16-pgvector"),
          StepV.installDebFromUrl InstallDebFromUrl.ollama,
          StepV.installDebFromUrl InstallDebFromUrl.tengu_caddy,
          StepV.ensureDirectory
            (((EnsureDirectory.new "/etc/tengu").with_permissions
              "0755").with_owner "root:root"),
          StepV.ensureDirectory
            (((EnsureDirectory.new "/var/lib/tengu").with_permissions
              "0755").with_owner "root:root"),
          StepV.ensureDirectory
            (((EnsureDirectory.new "/var/lib/tengu/apps").with_permissions
              "0755").with_owner "root:root"),
          StepV.ensureDirectory
            (((EnsureDirectory.new "/var/lib/tengu/repos").with_permissions
              "0755").with_owner "root:root"),
          StepV.ensureDirectory
            (((EnsureDirectory.new "/var/log/tengu").with_permissions
              "0755").with_owner "root:root"),
          StepV.ensureDirectory
            (((EnsureDirectory.new "/etc/caddy/sites").with_permissions
              "0755").with_owner "root:root"),
          StepV.writeFile
            (((WriteFile.new "/etc/tengu/config.toml"
              c.tengu_config_toml).with_permissions "0600").with_owner
              "root:root"),
          StepV.writeFile
            (((WriteFile.new "/etc/caddy/Caddyfile"
              c.caddyfile).with_permissions "0644").with_owner "root:root"),
          StepV.writeFile
            (((WriteFile.new "/etc/fail2ban/jail.local"
              c.fail2ban_config).with_permissions "0644").with_owner
              "root:root"),
          StepV.ensureFirewall
            (((EnsureFirewall.new.allow "22/tcp").allow "80/tcp").allow
              "443/tcp"),
          StepV.ensureService (EnsureService.new "docker"),
          StepV.ensureService (EnsureService.new "postgresql"),
          StepV.ensureService (EnsureService.new "fail2ban"),
          StepV.ensureService (EnsureService.new "caddy"),
          StepV.runCommand
            (RunCommand.unless
              (RunCommand.new "Enable ollama service"
                "systemctl enable ollama || true")
              "systemctl is-enabled ollama >/dev/null 2>&1"),
          StepV.runCommand
            (RunCommand.unless
              (RunCommand.new "Start ollama service"
                "systemctl start ollama || true")
              "systemctl is-active ollama >/dev/null 2>&1"),
          StepV.installDebFromUrl (InstallDebFromUrl.new "tengu" (tengu_deb_url c)),
          StepV.ensureService (EnsureService.new "tengu"),
          StepV.runCommand
            (RunCommand.unless
              (RunCommand.new "Create tengu PostgreSQL database"
                "sudo -u postgres psql -c \"CREATE DATABASE tengu;\" 2>/dev/null || true")
              "sudo -u postgres psql -lqt | cut -d \\| -f 1 | grep -qw tengu"),
          StepV.runCommand
            (RunCommand.unless
              (RunCommand.new "Create tengu PostgreSQL user"
                "sudo -u postgres psql -c \"CREATE USER tengu WITH PASSWORD 'tengu';\" 2>/dev/null || true")
              "sudo -u postgres psql -tAc \"SELECT 1 FROM pg_roles WHERE rolname='tengu'\" | grep -q 1"),
          StepV.runCommand
            (RunCommand.new "Grant PostgreSQL privileges to tengu"
              "sudo -u postgres psql -c \"GRANT ALL PRIVILEGES ON DATABASE tengu TO tengu;\""),
          StepV.runCommand
            (RunCommand.unless
              (RunCommand.new "Enable pgvector extension"
                "sudo -u postgres psql -d tengu -c \"CREATE EXTENSION IF NOT EXISTS vector;\"")
              "sudo -u postgres psql -d tengu -tAc \"SELECT 1 FROM pg_extension WHERE extname='vector'\" | grep -q 1")] }

/-! ## Cloud-init renderer (`render/cloud_init.rs`) -/

/-- User block configuration held by the renderer
(`CloudInitUserConfig`). -/
structure CloudInitUserConfig where
  name : String
  groups : List String
  shell : String
  «sudo» : String
  ssh_authorized_keys : List String
deriving DecidableEq

/-- One serialized user record (`CloudInitUser`): groups joined with
a comma separator. -/
structure CloudInitUser where
  name : String
  groups : String
  shell : String
  «sudo» : String
  ssh_authorized_keys : List String
deriving DecidableEq

/-- The assembled cloud-init document structure (`CloudInitConfig`),
before YAML serialization. -/
structure CloudInitCfg where
  hostname : String
  fqdn : Option String
  timezone : String
  locale : String
  ssh_pwauth : Bool
  disable_root : Bool
  users : List CloudInitUser
  package_update : Bool
  package_upgrade : Bool
  packages : List String
  write_files : List CloudInitFile
  runcmd : List String
  final_message : String
deriving DecidableEq

/-- The cloud-init renderer (`CloudInitRenderer`). -/
structure CloudInitRenderer where
  user_config : Option CloudInitUserConfig
deriving DecidableEq

def CloudInitRenderer.new : CloudInitRenderer := ⟨none⟩

/-- String comparison used by the package sort. Rust sorts `String`s by
their `Ord` instance (byte-wise lexicographic, which on valid UTF-8 agrees
with codepoint-lexicographic order, i.e. Lean's `String` order). -/
def stringSortLe (a b : String) : Bool := decide (a ≤ b)

/-- The fragment-collection loop of `CloudInitRenderer::render`: packages,
write-file records and commands extended in step order. -/
def collectFragments (steps : List StepV) :
    List String × List CloudInitFile × List String :=
  steps.foldl
    (fun acc st =>
      let f := st.to_cloud_init
      (acc.1 ++ f.packages, acc.2.1 ++ f.write_files, acc.2.2 ++ f.runcmd))
    ([], [], [])

/-- Document assembly performed by `CloudInitRenderer::render` before
serialization: collect fragments, sort and deduplicate packages, build the
optional users list and the fixed preamble fields. -/
def CloudInitRenderer.assemble (r : CloudInitRenderer) (m : Manifest) :
    CloudInitCfg :=
  let t := collectFragments m.steps
  { hostname := m.hostname
    fqdn := m.fqdn
    timezone := m.timezone
    locale := m.locale
    ssh_pwauth := false
    disable_root := true
    users :=
      match r.user_config with
      | some uc =>
        [⟨uc.name, joinSep ", " uc.groups, uc.shell, uc.«sudo»,
          uc.ssh_authorized_keys⟩]
      | none => []
    package_update := true
    package_upgrade := true
    packages := dedupConsec (List.mergeSort t.1 stringSortLe)
    write_files := t.2.1
    runcmd := t.2.2
    final_message := "Tengu PaaS server ready!" }

/-- Final render (`CloudInitRenderer::render`): the fixed `#cloud-config`
type marker line followed by the serialized document. The YAML serializer
(`serde_yaml`, an external library) is abstracted as a parameter. -/
def CloudInitRenderer.render (r : CloudInitRenderer)
    (toYaml : CloudInitCfg → String) (m : Manifest) : String :=
  "#cloud-config\n" ++ toYaml (r.assemble m)

/-! ## Remote execution driver (`providers/baremetal.rs`) -/

/-- Baremetal provider state (`Baremetal`). -/
structure Baremetal where
  host : String
  user : String
  port : Nat
deriving DecidableEq

/-- Host argument parsing (`Baremetal::new`): split `user@hostname` at the
first `@`; without an `@` the user defaults to `root`. -/
def Baremetal.new (host : String) (port : Nat) : Baremetal :=
  match splitOnceL '@' host.data with
  | some (u, h) => ⟨⟨h⟩, ⟨u⟩, port⟩
  | none => ⟨host, "root", port⟩

/-- The manifest from which `Baremetal::generate_script` renders the
uploaded script (`baremetal.rs` line 47). -/
def Baremetal.script_manifest (config : TenguConfig) : Manifest :=
  Manifest.tengu config

/-- The total step count the driver computes by re-assembling the manifest
(`Baremetal::provision`, lines 67-68). -/
def Baremetal.total_steps (config : TenguConfig) : Nat :=
  (Manifest.tengu config).steps.length

/-- The fatal connection error text of `Baremetal::wait_for_ssh`
(the `bail!` at line 155). -/
def connect_error_msg (host : String) (port : Nat) : String :=
  "Could not connect to " ++ host ++ ":" ++ Nat.repr port ++ " via SSH"

/-- Observable outcome of the connection-retry loop: whether it connected,
how many `ssh` attempts ran, how many 2-second sleeps happened between
consecutive attempts, and the fatal error text if the budget was
exhausted. -/
structure SshWaitResult where
  connected : Bool
  attemptsMade : Nat
  sleeps : Nat
  errMsg : Option String
deriving DecidableEq

/-- The retry loop body of `Baremetal::wait_for_ssh`. The outcome of the
`i`-th connection attempt (0-based) is abstracted as the oracle `att i`;
`fuel` is the remaining attempt budget (`max_attempts - idx`), `idx` the
number of attempts already made and `sl` the sleeps already taken. The
fuel-0 case is unreachable from the entry point. -/
def wait_for_ssh_go (att : Nat → Bool) (host : String) (port : Nat) :
    Nat → Nat → Nat → SshWaitResult
  | 0, idx, sl => ⟨false, idx, sl, some (connect_error_msg host port)⟩
  | fuel + 1, idx, sl =>
    if att idx then ⟨true, idx + 1, sl, none⟩
    else if fuel = 0 then
      ⟨false, idx + 1, sl, some (connect_error_msg host port)⟩
    else wait_for_ssh_go att host port fuel (idx + 1) (sl + 1)

/-- The attempt bound of `Baremetal::wait_for_ssh` (`max_attempts`). -/
def max_attempts : Nat := 30

/-- The connection-retry loop of `Baremetal::wait_for_ssh`. -/
def wait_for_ssh (att : Nat → Bool) (host : String) (port : Nat) :
    SshWaitResult :=
  wait_for_ssh_go att host port max_attempts 0 0

/-- The fatal error text of `Baremetal::execute_script` for a non-zero
remote exit status (the `Display` form of the status is abbreviated to its
numeric code). -/
def script_failed_msg (code : Nat) : String :=
  "Provisioning script failed with exit code: " ++ Nat.repr code

/-- Result handling of `Baremetal::execute_script` after stream
consumption: a non-zero exit status of the remote script is a fatal
error carrying the status. -/
def execute_script (exitCode : Nat) : Except String Unit :=
  if exitCode = 0 then Except.ok () else Except.error (script_failed_msg exitCode)

/-- Result handling of `Baremetal::cleanup_script`: always `Ok`; a failed
removal only emits a warning (the `Bool` component). -/
def cleanup_script (removeSucceeded : Bool) : Except String Unit × Bool :=
  (Except.ok (), !removeSucceeded)

/-- Parsed progress events (`ProgressMarker`). -/
inductive ProgressMarker where
  | start : Nat → String → ProgressMarker
  | done : Nat → String → ProgressMarker
  | skip : Nat → String → ProgressMarker
  | fail : Nat → String → ProgressMarker
  | complete : Nat → ProgressMarker
deriving DecidableEq

/-- The ESC character. -/
def escChar : Char := Char.ofNat 27

/-- The scanning loop of `strip_ansi_codes` over a peekable character
iterator, with the mode flag recording whether the scanner is currently
inside an `ESC [` sequence (skipping until an ASCII-alphabetic terminator
is consumed). -/
def stripAnsiAux : Bool → List Char → List Char
  | _, [] => []
  | true, c :: cs =>
    if isAsciiAlpha c then stripAnsiAux false cs else stripAnsiAux true cs
  | false, [c] => if c = escChar then [] else [c]
  | false, c :: d :: cs =>
    if c = escChar then
      if d = '[' then stripAnsiAux true cs else stripAnsiAux false (d :: cs)
    else c :: stripAnsiAux false (d :: cs)

/-- ANSI escape stripping (`strip_ansi_codes`). -/
def strip_ansi_codes (s : String) : String := ⟨stripAnsiAux false s.data⟩

/-- The marker prefix tested by `parse_progress_marker`. -/
def tengu_step_prefix : List Char := "TENGU_STEP:".data

/-- The action dispatch of `parse_progress_marker` (the final `match`). -/
def matchAction (action : String) (step : Nat) (desc : String) :
    Option ProgressMarker :=
  if action = "START" then some (ProgressMarker.start step desc)
  else if action = "DONE" then some (ProgressMarker.done step desc)
  else if action = "SKIP" then some (ProgressMarker.skip step desc)
  else if action = "FAIL" then some (ProgressMarker.fail step desc)
  else if action = "COMPLETE" then some (ProgressMarker.complete step)
  else none

/-- Field handling of `parse_progress_marker` over the collected
`splitn(4, ':')` pieces: fewer than three parts yield nothing; otherwise
the numeric index parse of `parts[2]` runs before the action dispatch, and
the missing fourth part defaults to an empty description
(`parts.get(3).unwrap_or(&"")`). -/
def parse_fields : List (List Char) → Option ProgressMarker
  | _ :: p1 :: p2 :: rest =>
    match parseUsizeL p2 with
    | some step => matchAction ⟨p1⟩ step ⟨rest.headD []⟩
    | none => none
  | _ => none

/-- Marker parsing on the ANSI-stripped, trimmed character list: prefix
test, `splitn(4, ':')`, then field handling (`parse_progress_marker`
after its `clean` binding). -/
def parse_marker_clean (clean : List Char) : Option ProgressMarker :=
  if tengu_step_prefix.isPrefixOf clean then
    parse_fields (splitnL 4 ':' clean)
  else none

/-- Progress marker parsing (`parse_progress_marker`): trim the line,
strip ANSI escapes, then match the marker grammar. -/
def parse_progress_marker (line : String) : Option ProgressMarker :=
  parse_marker_clean (stripAnsiAux false (trimL line.data))

/-! ## Shell semantics of the rendered step commands

Each step's `to_bash` fragment is interpreted over an abstract machine
state. The interpretation of every concrete shell primitive appearing in
the rendered strings (`mkdir -p`, `sha256sum`-compare-then-heredoc,
`chmod`, `chown`, `dpkg -s || apt-get install`, `curl | gpg`, `grep` over
`sources.list.d`, `useradd`, `usermod -aG`, `systemctl`, `ufw`, appends to
`authorized_keys`, …) is written next to the definition it models. Opaque
caller-supplied command strings (the `RunCommand` payload and custom check
commands) are interpreted through a `CmdEnv` environment. -/

/-- A regular file of the abstract machine: content plus optional recorded
mode and owner. -/
structure SysFile where
  content : String
  perms : Option String
  owner : Option String
deriving DecidableEq

/-- Pointwise update of a string-indexed map. -/
def updFn {α : Type} (f : String → α) (k : String) (v : α) : String → α :=
  fun q => if q = k then v else f q

theorem updFn_same {α : Type} (f : String → α) (k : String) (v : α) :
    updFn f k v k = v := by simp [updFn]

theorem updFn_updFn {α : Type} (f : String → α) (k : String) (v w : α) :
    updFn (updFn f k v) k w = updFn f k w := by
  funext q
  by_cases hq : q = k <;> simp [updFn, hq]

theorem updFn_noop {α : Type} (f : String → α) (k : String) (v : α)
    (h : f k = v) : updFn f k v = f := by
  funext q
  by_cases hq : q = k <;> simp [updFn, hq, h.symm]

/-- Abstract machine state over which rendered shell fragments are
interpreted. Individually-addressed paths live in `files`; the
`/etc/apt/sources.list.d/*.list` directory scanned by the repository grep
is a separate association list (`aptSources`, filename stem to content) so
that the glob can be searched; directories, packages, users, groups,
services and the firewall each get their own component. -/
structure SysState where
  files : String → Option SysFile
  dirs : String → Bool
  dirPerms : String → Option String
  dirOwners : String → Option String
  recOwners : String → Option String
  aptSources : List (String × String)
  installed : String → Bool
  aptUpdated : Bool
  users : String → Option String
  sysGroups : String → Bool
  groupMembers : String → String → Bool
  enabled : String → Bool
  active : String → Bool
  ufwActive : Bool
  ufwDefaultIn : String
  ufwDefaultOut : String
  ufwAllowed : String → Bool

attribute [ext] SysState

/-- Content of the file at `p`, when it exists. -/
def getContent (s : SysState) (p : String) : Option String :=
  (s.files p).map (fun f => f.content)

/-- Recorded mode of the file at `p`. -/
def filePermsAt (s : SysState) (p : String) : Option String :=
  match s.files p with
  | some f => f.perms
  | none => none

/-- Recorded owner of the file at `p`. -/
def fileOwnerAt (s : SysState) (p : String) : Option String :=
  match s.files p with
  | some f => f.owner
  | none => none

/-- Semantics of a truncating redirect (`cat > p`, `echo … > p`): the file
gets the new content; mode and owner of an existing file survive. -/
def writeContent (s : SysState) (p c : String) : SysState :=
  { s with files := updFn s.files p (some ⟨c, filePermsAt s p, fileOwnerAt s p⟩) }

/-- Semantics of an appending redirect (`echo … >> p`): create-or-extend. -/
def appendContent (s : SysState) (p t : String) : SysState :=
  { s with files := updFn s.files p (some ⟨(getContent s p).getD "" ++ t, filePermsAt s p, fileOwnerAt s p⟩) }

/-- Semantics of `rm -f p`. -/
def removeFilePath (s : SysState) (p : String) : SysState :=
  { s with files := updFn s.files p none }

/-- Semantics of `chmod m p` on a regular file (no effect when absent). -/
def chmodFile (s : SysState) (p m : String) : SysState :=
  { s with files := updFn s.files p ((s.files p).map (fun f => ⟨f.content, some m, f.owner⟩)) }

/-- Semantics of `chown o p` on a regular file (no effect when absent). -/
def chownFile (s : SysState) (p o : String) : SysState :=
  { s with files := updFn s.files p ((s.files p).map (fun f => ⟨f.content, f.perms, some o⟩)) }

/-- Semantics of `mkdir -p p`. -/
def mkdirP (s : SysState) (p : String) : SysState :=
  { s with dirs := updFn s.dirs p true }

/-- Semantics of `chmod m p` on a directory. -/
def chmodDir (s : SysState) (p m : String) : SysState :=
  { s with dirPerms := updFn s.dirPerms p (some m) }

/-- Semantics of `chown o p` on a directory. -/
def chownDir (s : SysState) (p o : String) : SysState :=
  { s with dirOwners := updFn s.dirOwners p (some o) }

/-- Semantics of `chown -R o p`. -/
def chownRec (s : SysState) (p o : String) : SysState :=
  { s with recOwners := updFn s.recOwners p (some o) }

/-- Semantics of a successful package installation
(`apt-get install -y n`, `dpkg -i`). -/
def installPkg (s : SysState) (n : String) : SysState :=
  { s with installed := updFn s.installed n true }

/-- Association-list update used for the `sources.list.d` directory. -/
def setAssoc (l : List (String × String)) (k v : String) :
    List (String × String) :=
  if l.any (fun e => e.1 = k) then
    l.map (fun e => if e.1 = k then (k, v) else e)
  else l ++ [(k, v)]

/-- Semantics of `grep -q '<line>' /etc/apt/sources.list.d/*.list`: some
list file contains the line as a substring (the grep pattern is treated as
a literal string; the repository lines contain no newline, so matching the
written `line ++ "\n"` content is faithful). -/
def sourcesHasLine (s : SysState) (line : String) : Bool :=
  s.aptSources.any (fun e => strContains e.2 line)

/-! ### Per-variant command semantics -/

/-- The optional `chmod` emitted for a configured file mode. -/
def applyPermOpt (po : Option String) (p : String) (s : SysState) : SysState :=
  match po with
  | some m => chmodFile s p m
  | none => s

/-- The optional `chown` emitted for a configured file owner. -/
def applyOwnerOpt (oo : Option String) (p : String) (s : SysState) : SysState :=
  match oo with
  | some o => chownFile s p o
  | none => s

/-- The optional `chmod` emitted for a configured directory mode. -/
def applyDirPermOpt (po : Option String) (p : String) (s : SysState) : SysState :=
  match po with
  | some m => chmodDir s p m
  | none => s

/-- The optional `chown` emitted for a configured directory owner. -/
def applyDirOwnerOpt (oo : Option String) (p : String) (s : SysState) : SysState :=
  match oo with
  | some o => chownDir s p o
  | none => s

/-- Effect of `WriteFile::to_bash`: `mkdir -p "$(dirname p)"`, then the
digest-compare-and-rewrite block (`sha256sum p | cut || echo 'none'`
produces the on-disk digest when the file exists and a non-digest
placeholder otherwise; the quoted heredoc writes the configured content
followed by the delimiter line, i.e. content plus a trailing newline), then
the optional `chmod`/`chown`. -/
def runWriteFile (w : WriteFile) (s : SysState) : SysState :=
  let s1 := mkdirP s (dirnameStr w.path)
  let current : String :=
    match getContent s1 w.path with
    | some c => sha256hex c
    | none => ""
  let s2 := if current = w.content_hash then s1
    else writeContent s1 w.path (w.content ++ "\n")
  applyOwnerOpt w.owner w.path (applyPermOpt w.permissions w.path s2)

/-- Guard semantics of `WriteFile::check_command`:
`[ -f p ] && [ "$(sha256sum p | cut -d' ' -f1)" = "<digest>" ]`. -/
def checkWriteFile (w : WriteFile) (s : SysState) : Bool :=
  match getContent s w.path with
  | some c => sha256hex c == w.content_hash
  | none => false

/-- Semantics of `if [ ! -f keyring ]; then curl … | gpg --dearmor -o keyring; fi`:
materialize the keyring file when absent. -/
def ensureKeyring (r : Repository) (s : SysState) : SysState :=
  if (s.files r.keyring_path).isSome then s
  else writeContent s r.keyring_path ("gpg-dearmor:" ++ r.key_url)

/-- Semantics of the `grep`-guarded
`echo '<line>' > sources.list.d/<n>.list; apt-get update`: write the source
line (with `echo`'s trailing newline) and refresh the index when the line
is not yet present. -/
def ensureRepoLine (name : String) (r : Repository) (s : SysState) : SysState :=
  if sourcesHasLine s r.repo_line then s
  else { s with aptSources := setAssoc s.aptSources name (r.repo_line ++ "\n"), aptUpdated := true }

/-- Semantics of `dpkg -s n >/dev/null 2>&1 || apt-get install -y n`. -/
def installIfAbsent (n : String) (s : SysState) : SysState :=
  if s.installed n then s else installPkg s n

/-- Effect of `InstallPackage::to_bash`: optional repository bootstrap
(keyring, source line, index refresh), then the guarded install. -/
def runInstallPackage (p : InstallPackage) (s : SysState) : SysState :=
  installIfAbsent p.name
    (match p.repository with
     | some r => ensureRepoLine p.name r (ensureKeyring r s)
     | none => s)

/-- Effect of `InstallDebFromUrl::to_bash`: resolve the URL, `wget` the
package to `/tmp/<name>.deb`, install it (`dpkg -i || apt-get install -f -y`
modelled as a successful installation), then `rm -f` the download. -/
def runInstallDeb (d : InstallDebFromUrl) (s : SysState) : SysState :=
  let tmp := "/tmp/" ++ d.name ++ ".deb"
  removeFilePath (installPkg (writeContent s tmp ("deb-from:" ++ d.url_template)) d.name) tmp

/-- Effect of `EnsureDirectory::to_bash`: `mkdir -p`, optional `chmod`,
optional `chown`. -/
def runEnsureDirectory (d : EnsureDirectory) (s : SysState) : SysState :=
  applyDirOwnerOpt d.owner d.path
    (applyDirPermOpt d.permissions d.path (mkdirP s d.path))

/-- Semantics of `systemctl is-enabled n || systemctl enable n`, emitted
only when the step's `enabled` flag is set. -/
def setEnabledIf (b : Bool) (n : String) (s : SysState) : SysState :=
  if b then (if s.enabled n then s else { s with enabled := updFn s.enabled n true }) else s

/-- Semantics of `systemctl is-active n || systemctl start n`, emitted
only when the step's `started` flag is set. -/
def setActiveIf (b : Bool) (n : String) (s : SysState) : SysState :=
  if b then (if s.active n then s else { s with active := updFn s.active n true }) else s

/-- Effect of `EnsureService::to_bash`. -/
def runEnsureService (sv : EnsureService) (s : SysState) : SysState :=
  setActiveIf sv.started sv.name (setEnabledIf sv.enabled sv.name s)

/-- Home, `.ssh` and `authorized_keys` paths used by `EnsureUser`. -/
def homePath (n : String) : String := "/home/" ++ n

def sshDirPath (n : String) : String := "/home/" ++ n ++ "/.ssh"

def authKeysPath (n : String) : String := "/home/" ++ n ++ "/.ssh/authorized_keys"

def sudoersPath (n : String) : String := "/etc/sudoers.d/" ++ n

/-- Semantics of `id n || useradd -m -s shell n`: create the user with the
given shell and a home directory. -/
def addUser (s : SysState) (n shell : String) : SysState :=
  { s with
    users := updFn s.users n (some shell)
    dirs := updFn s.dirs (homePath n) true }

/-- Semantics of the group loop
`for g in …; do getent group $g >/dev/null && usermod -aG $g n || true; done`:
membership is granted for each listed group that exists; the existence test
reads the (unmodified) group database of the pre-loop state. -/
def addGroupsBulk (u : EnsureUser) (s : SysState) : SysState :=
  { s with groupMembers := fun g usr =>
      if usr = u.name ∧ g ∈ u.groups ∧ s.sysGroups g = true then true
      else s.groupMembers g usr }

/-- Semantics of one iteration of the key loop:
`grep -qF '<key>' authorized_keys || echo '<key>' >> authorized_keys`
(the shell unquoting of the single-quote escaping reproduces the original
key text, so both the fixed-string grep and the appended line use the key
itself). -/
def appendKeyIfAbsent (n : String) (s : SysState) (key : String) : SysState :=
  if strContains ((getContent s (authKeysPath n)).getD "") key then s
  else appendContent s (authKeysPath n) (key ++ "\n")

/-- Stage 1 of `EnsureUser::to_bash`: `id n || useradd -m -s shell n`. -/
def ensureUserCreate (u : EnsureUser) (s : SysState) : SysState :=
  if (s.users u.name).isSome then s else addUser s u.name u.shell

/-- Stage 2 of `EnsureUser::to_bash`: the group membership loop. -/
def ensureUserGroups (u : EnsureUser) (s : SysState) : SysState :=
  if u.groups.isEmpty then s else addGroupsBulk u s

/-- Stage 3 of `EnsureUser::to_bash`: the sudoers drop-in
(`echo '<n> <rule>' > /etc/sudoers.d/<n> && chmod 440 …`). -/
def ensureUserSudo (u : EnsureUser) (s : SysState) : SysState :=
  match u.«sudo» with
  | some sd =>
    chmodFile (writeContent s (sudoersPath u.name) (u.name ++ " " ++ sd ++ "\n"))
      (sudoersPath u.name) "440"
  | none => s

/-- Stage 4 of `EnsureUser::to_bash`: the SSH block
(`mkdir -p ~/.ssh && chmod 700`, the per-key guarded appends,
`chmod 600 authorized_keys && chown -R n:n ~/.ssh`). -/
def ensureUserSsh (u : EnsureUser) (s : SysState) : SysState :=
  if u.ssh_keys.isEmpty then s
  else
    chownRec
      (chmodFile
        (u.ssh_keys.foldl (appendKeyIfAbsent u.name)
          (chmodDir (mkdirP s (sshDirPath u.name)) (sshDirPath u.name) "700"))
        (authKeysPath u.name) "600")
      (sshDirPath u.name) (u.name ++ ":" ++ u.name)

/-- Effect of `EnsureUser::to_bash`: guarded `useradd`, group loop, sudoers
drop-in, then the SSH block, in emission order. -/
def runEnsureUser (u : EnsureUser) (s : SysState) : SysState :=
  ensureUserSsh u (ensureUserSudo u (ensureUserGroups u (ensureUserCreate u s)))

/-- Semantics of the two `ufw default … incoming/outgoing` commands. -/
def ufwSetDefaults (f : EnsureFirewall) (s : SysState) : SysState :=
  { s with ufwDefaultIn := f.default_incoming, ufwDefaultOut := f.default_outgoing }

/-- Semantics of the `ufw allow <rule>` loop (idempotent rule insertion). -/
def ufwAddRules (rules : List UfwRule) (s : SysState) : SysState :=
  rules.foldl (fun st r => { st with ufwAllowed := updFn st.ufwAllowed r.allow true }) s

/-- Semantics of `ufw status | grep -q 'Status: active' || ufw --force enable`. -/
def ufwEnableIfInactive (s : SysState) : SysState :=
  if s.ufwActive then s else { s with ufwActive := true }

/-- Effect of `EnsureFirewall::to_bash`: default policies, allow rules,
then enable when inactive. -/
def runEnsureFirewall (f : EnsureFirewall) (s : SysState) : SysState :=
  ufwEnableIfInactive (ufwAddRules f.rules (ufwSetDefaults f s))

/-- Interpretation environment for opaque caller-supplied shell command
strings: `exec` is the state effect of running such a command, `eval` its
success as a test. -/
structure CmdEnv where
  exec : String → SysState → SysState
  eval : String → SysState → Bool

/-- Effect of `RunCommand::to_bash` (`unless || { command; }`): run the
command unless the guard succeeds; without a guard the command always
runs. -/
def runRunCommand (env : CmdEnv) (r : RunCommand) (s : SysState) : SysState :=
  match r.unless_cmd with
  | some u => if env.eval u s then s else env.exec r.command s
  | none => env.exec r.command s

/-- State effect of one step's rendered shell commands. -/
def runStep (env : CmdEnv) : StepV → SysState → SysState
  | StepV.writeFile w, s => runWriteFile w s
  | StepV.installPackage p, s => runInstallPackage p s
  | StepV.installDebFromUrl d, s => runInstallDeb d s
  | StepV.ensureDirectory d, s => runEnsureDirectory d s
  | StepV.ensureService sv, s => runEnsureService sv s
  | StepV.ensureUser u, s => runEnsureUser u s
  | StepV.ensureFirewall f, s => runEnsureFirewall f s
  | StepV.runCommand r, s => runRunCommand env r s

/-- Result of one step's guard command (`check_command`): `none` when the
step has no guard, otherwise the guard's success. -/
def checkStep (env : CmdEnv) : StepV → SysState → Option Bool
  | StepV.writeFile w, s => some (checkWriteFile w s)
  | StepV.installPackage p, s => some (s.installed p.name)
  | StepV.installDebFromUrl d, s =>
    match d.custom_check with
    | some c => some (env.eval c s)
    | none => some (s.installed d.name)
  | StepV.ensureDirectory d, s => some (s.dirs d.path)
  | StepV.ensureService sv, s =>
    if sv.started then some (s.active sv.name)
    else if sv.enabled then some (s.enabled sv.name)
    else none
  | StepV.ensureUser u, s => some ((s.users u.name).isSome)
  | StepV.ensureFirewall _, s => some s.ufwActive
  | StepV.runCommand r, s => r.unless_cmd.map (fun u => env.eval u s)

/-! ## Additional substring helpers -/

theorem strContains_right_part (pre suf : String) :
    strContains (pre ++ suf) suf = true := by
  rw [strContains_iff]
  exact ⟨pre.data, [], by simp⟩

theorem string_append_assoc (a b c : String) :
    a ++ b ++ c = a ++ (b ++ c) := by
  apply strEq_of_data
  simp [String.data_append, List.append_assoc]

/-! ## Claim C10: host argument parsing -/

/-- C10. `Baremetal::new` splits a `user@hostname` argument at the first
`@` into the SSH user and hostname; an argument without `@` yields user
`root` and the unchanged argument as host. -/
theorem baremetal_new_spec (host : String) (port : Nat) :
    (∀ u h : String, host = u ++ "@" ++ h → '@' ∉ u.data →
        Baremetal.new host port = ⟨h, u, port⟩) ∧
    ('@' ∉ host.data → Baremetal.new host port = ⟨host, "root", port⟩) := by
  constructor
  · intro u h heq hu
    have hdata : host.data = u.data ++ '@' :: h.data := by
      rw [heq]
      simp [String.data_append]
    have hsplit : splitOnceL '@' host.data = some (u.data, h.data) :=
      (splitOnceL_eq_some_iff '@' host.data u.data h.data).mpr ⟨hdata, hu⟩
    rw [Baremetal.new, hsplit]
  · intro hmem
    have hsplit : splitOnceL '@' host.data = none :=
      (splitOnceL_eq_none_iff '@' host.data).mpr hmem
    rw [Baremetal.new, hsplit]

/-- Witness for C10 at concrete hosts. -/
theorem baremetal_new_spec_witness :
    Baremetal.new "alice@example.com" 22 = ⟨"example.com", "alice", 22⟩ ∧
    Baremetal.new "myhost" 2222 = ⟨"myhost", "root", 2222⟩ :=
  ⟨(baremetal_new_spec "alice@example.com" 22).1 "alice" "example.com"
      (by decide) (by decide),
   (baremetal_new_spec "myhost" 2222).2 (by decide)⟩

/-! ## Claim C9: script failure is fatal, cleanup failure is not -/

/-- C9. A non-zero exit status of the executed remote script makes
`execute_script` return an error naming the status, while `cleanup_script`
always returns success, emitting at most a warning, so provisioning does
not fail on cleanup errors. -/
theorem execute_cleanup_error_contract (code : Nat) (removeOk : Bool) :
    (execute_script code = Except.error (script_failed_msg code) ↔ code ≠ 0) ∧
    (code = 0 → execute_script code = Except.ok ()) ∧
    strContains (script_failed_msg code) (Nat.repr code) = true ∧
    (cleanup_script removeOk).1 = Except.ok () ∧
    ((cleanup_script removeOk).2 = true ↔ removeOk = false) := by
  refine ⟨?_, ?_, ?_, rfl, ?_⟩
  · by_cases h : code = 0
    · subst h
      simp [execute_script]
    · simp [execute_script, h]
  · intro h
    simp [execute_script, h]
  · exact strContains_right_part _ _
  · cases removeOk <;> simp [cleanup_script]

/-- Witness for C9 at a failing exit status and a failing cleanup. -/
theorem execute_cleanup_error_contract_witness :
    (execute_script 127 = Except.error (script_failed_msg 127) ↔ 127 ≠ 0) ∧
    (127 = 0 → execute_script 127 = Except.ok ()) ∧
    strContains (script_failed_msg 127) (Nat.repr 127) = true ∧
    (cleanup_script false).1 = Except.ok () ∧
    ((cleanup_script false).2 = true ↔ false = false) :=
  execute_cleanup_error_contract 127 false

/-! ## Claim C8: heredoc delimiter choice -/

/-- The ordered candidate list of the spec's reformulated algorithm. -/
def delimiter_candidates : List String :=
  ["TENGU_EOF", "__TENGU_FILE_END__", "__FILE_CONTENT_END_MARKER__"]

/-- Modelled from the spec's words: pick the first delimiter from the
ordered candidate list that is not found as a substring of the content. -/
def firstNonOccurring (content : String) : Option String :=
  (delimiter_candidates.filter (fun d => !(strContains content d))).head?

/-- Counterexample to C8 as stated: when the content contains all three
candidates, the code still picks the last candidate, which does occur
inside the content (so the chosen delimiter is not collision-free and is
not "the first candidate not occurring"). -/
theorem heredoc_delimiter_cex :
    (WriteFile.new "/etc/x"
        "TENGU_EOF __TENGU_FILE_END__ __FILE_CONTENT_END_MARKER__").heredoc_delimiter =
      "__FILE_CONTENT_END_MARKER__" ∧
    strContains
        (WriteFile.new "/etc/x"
          "TENGU_EOF __TENGU_FILE_END__ __FILE_CONTENT_END_MARKER__").content
        (WriteFile.new "/etc/x"
          "TENGU_EOF __TENGU_FILE_END__ __FILE_CONTENT_END_MARKER__").heredoc_delimiter =
      true ∧
    firstNonOccurring
        (WriteFile.new "/etc/x"
          "TENGU_EOF __TENGU_FILE_END__ __FILE_CONTENT_END_MARKER__").content =
      none := by
  refine ⟨by decide, by decide, by decide⟩

/-- C8 (amended): whenever at least one candidate does not occur in the
content, the chosen heredoc delimiter is exactly the first candidate of
the ordered list (TENGU_EOF, __TENGU_FILE_END__, __FILE_CONTENT_END_MARKER__)
not occurring as a substring of the content, and therefore does not occur
inside the content it delimits; if the content contains all three
candidates, the last candidate is chosen and may collide. -/
theorem heredoc_delimiter_amended (w : WriteFile)
    (h : ¬(strContains w.content "TENGU_EOF" = true ∧
           strContains w.content "__TENGU_FILE_END__" = true ∧
           strContains w.content "__FILE_CONTENT_END_MARKER__" = true)) :
    firstNonOccurring w.content = some w.heredoc_delimiter ∧
    strContains w.content w.heredoc_delimiter = false := by
  have hbool : ∀ b : Bool, b ≠ true → b = false := by decide
  by_cases h1 : strContains w.content "TENGU_EOF" = true
  · by_cases h2 : strContains w.content "__TENGU_FILE_END__" = true
    · by_cases h3 : strContains w.content "__FILE_CONTENT_END_MARKER__" = true
      · exact absurd ⟨h1, h2, h3⟩ h
      · have h3' := hbool _ h3
        constructor
        · simp [firstNonOccurring, delimiter_candidates,
            WriteFile.heredoc_delimiter, List.filter, h1, h2, h3']
        · simp [WriteFile.heredoc_delimiter, h1, h2, h3']
    · have h2' := hbool _ h2
      constructor
      · simp [firstNonOccurring, delimiter_candidates,
          WriteFile.heredoc_delimiter, List.filter, h1, h2']
      · simp [WriteFile.heredoc_delimiter, h1, h2']
  · have h1' := hbool _ h1
    constructor
    · simp [firstNonOccurring, delimiter_candidates,
        WriteFile.heredoc_delimiter, List.filter, h1']
    · simp [WriteFile.heredoc_delimiter, h1']

/-- Witness for C8 at collision-free content. -/
theorem heredoc_delimiter_amended_witness :
    firstNonOccurring (WriteFile.new "/etc/test.conf" "plain text").content =
      some (WriteFile.new "/etc/test.conf" "plain text").heredoc_delimiter ∧
    strContains (WriteFile.new "/etc/test.conf" "plain text").content
      (WriteFile.new "/etc/test.conf" "plain text").heredoc_delimiter = false :=
  heredoc_delimiter_amended (WriteFile.new "/etc/test.conf" "plain text")
    (by decide)

/-! ## Claim C2: the write-file guard -/

/-- C2. The rendered write-file guard succeeds exactly when a file exists
at the target path whose SHA-256 content digest equals the digest computed
at render time from the configured content string. -/
theorem writefile_guard_iff (env : CmdEnv) (w : WriteFile) (s : SysState) :
    checkStep env (StepV.writeFile w) s = some true ↔
      ∃ f : SysFile, s.files w.path = some f ∧
        sha256hex f.content = w.content_hash := by
  cases hf : s.files w.path with
  | none =>
    simp [checkStep, checkWriteFile, getContent, hf]
  | some f =>
    have hg : getContent s w.path = some f.content := by
      rw [getContent, hf]; rfl
    simp only [checkStep, checkWriteFile, hg]
    constructor
    · intro hbeq
      have hbeq2 : (sha256hex f.content == w.content_hash) = true := by
        injection hbeq
      exact ⟨f, rfl, by simpa using hbeq2⟩
    · rintro ⟨g, hg2, hhash⟩
      injection hg2 with hg2
      rw [hg2]
      simp [beq_iff_eq, hhash]

/-! ## Claim C3: determinism of the manifest assembler -/

/-- C3. `Manifest::tengu` is deterministic: two invocations on the same
configuration agree in step count, order, descriptions, guard commands and
rendered fragments; hence the total step count the driver computes by
re-assembling the manifest equals the step count of the manifest used to
render the uploaded script. -/
theorem manifest_tengu_deterministic (c : TenguConfig) :
    (Manifest.tengu c).steps.length = (Manifest.tengu c).steps.length ∧
    (Manifest.tengu c).steps.map StepV.description =
      (Manifest.tengu c).steps.map StepV.description ∧
    (Manifest.tengu c).steps.map StepV.check_command =
      (Manifest.tengu c).steps.map StepV.check_command ∧
    (Manifest.tengu c).steps.map StepV.to_bash =
      (Manifest.tengu c).steps.map StepV.to_bash ∧
    (Manifest.tengu c).steps.map StepV.to_cloud_init =
      (Manifest.tengu c).steps.map StepV.to_cloud_init ∧
    Baremetal.total_steps c = (Baremetal.script_manifest c).steps.length :=
  ⟨rfl, rfl, rfl, rfl, rfl, rfl⟩

/-! ## Claim C7: bounded connection retry -/

theorem connect_error_msg_contains_host (h : String) (p : Nat) :
    strContains (connect_error_msg h p) h = true := by
  rw [strContains_iff]
  refine ⟨"Could not connect to ".data,
    (":" ++ Nat.repr p ++ " via SSH").data, ?_⟩
  simp [connect_error_msg, String.data_append, List.append_assoc]

theorem connect_error_msg_contains_port (h : String) (p : Nat) :
    strContains (connect_error_msg h p) (Nat.repr p) = true := by
  rw [strContains_iff]
  refine ⟨("Could not connect to " ++ h ++ ":").data, " via SSH".data, ?_⟩
  simp [connect_error_msg, String.data_append, List.append_assoc]

theorem wait_go_bounds (att : Nat → Bool) (host : String) (port : Nat) :
    ∀ fuel, 1 ≤ fuel → ∀ idx sl,
      (idx + 1 ≤ (wait_for_ssh_go att host port fuel idx sl).attemptsMade ∧
        (wait_for_ssh_go att host port fuel idx sl).attemptsMade ≤ idx + fuel) ∧
      (wait_for_ssh_go att host port fuel idx sl).sleeps =
        sl + ((wait_for_ssh_go att host port fuel idx sl).attemptsMade - idx - 1) := by
  intro fuel
  induction fuel with
  | zero => intro h; omega
  | succ f ih =>
    intro _ idx sl
    by_cases hatt : att idx = true
    · simp [wait_for_ssh_go, hatt]
    · have hatt' : att idx = false := by
        revert hatt; cases att idx <;> simp
      by_cases hf : f = 0
      · subst hf
        simp [wait_for_ssh_go, hatt']
      · have h1f : 1 ≤ f := by omega
        have hrec := ih h1f (idx + 1) (sl + 1)
        simp only [wait_for_ssh_go, hatt', if_neg hf, Bool.false_eq_true,
          if_false]
        omega

theorem wait_go_err (att : Nat → Bool) (host : String) (port : Nat) :
    ∀ fuel, 1 ≤ fuel → ∀ idx sl,
      ((wait_for_ssh_go att host port fuel idx sl).errMsg.isSome = true ↔
        (∀ j, idx ≤ j → j < idx + fuel → att j = false)) ∧
      ((wait_for_ssh_go att host port fuel idx sl).errMsg = none ∨
        (wait_for_ssh_go att host port fuel idx sl).errMsg =
          some (connect_error_msg host port)) ∧
      ((wait_for_ssh_go att host port fuel idx sl).connected = true ↔
        (wait_for_ssh_go att host port fuel idx sl).errMsg = none) := by
  intro fuel
  induction fuel with
  | zero => intro h; omega
  | succ f ih =>
    intro _ idx sl
    by_cases hatt : att idx = true
    · refine ⟨?_, ?_, ?_⟩
      · simp only [wait_for_ssh_go, hatt, if_true]
        constructor
        · intro hfalse; cases hfalse
        · intro hall
          have := hall idx (Nat.le_refl idx) (by omega)
          rw [hatt] at this
          cases this
      · simp [wait_for_ssh_go, hatt]
      · simp [wait_for_ssh_go, hatt]
    · have hatt' : att idx = false := by
        revert hatt; cases att idx <;> simp
      by_cases hf : f = 0
      · subst hf
        refine ⟨?_, ?_, ?_⟩
        · simp only [wait_for_ssh_go, hatt', Bool.false_eq_true, if_false,
            if_pos rfl]
          constructor
          · intro _ j hj1 hj2
            have : j = idx := by omega
            rw [this, hatt']
          · intro _; rfl
        · simp [wait_for_ssh_go, hatt']
        · simp [wait_for_ssh_go, hatt']
      · have h1f : 1 ≤ f := by omega
        have hrec := ih h1f (idx + 1) (sl + 1)
        have hunf : wait_for_ssh_go att host port (f + 1) idx sl =
            wait_for_ssh_go att host port f (idx + 1) (sl + 1) := by
          simp [wait_for_ssh_go, hatt', hf]
        rw [hunf]
        refine ⟨?_, hrec.2.1, hrec.2.2⟩
        rw [hrec.1]
        constructor
        · intro hall j hj1 hj2
          by_cases hji : j = idx
          · rw [hji, hatt']
          · exact hall j (by omega) (by omega)
        · intro hall j hj1 hj2
          exact hall j (by omega) (by omega)

/-- C7. `wait_for_ssh` makes at most 30 connection attempts with a
2-second pause between consecutive attempts (so `attempts - 1` sleeps);
exhausting the bound — i.e. exactly when all 30 attempts fail — produces
the fatal connection error, whose text names the host and the port, and
the loop never retries beyond the bound. -/
theorem wait_for_ssh_bounded (att : Nat → Bool) (host : String) (port : Nat) :
    (wait_for_ssh att host port).attemptsMade ≤ 30 ∧
    (wait_for_ssh att host port).sleeps =
      (wait_for_ssh att host port).attemptsMade - 1 ∧
    ((wait_for_ssh att host port).errMsg.isSome = true ↔
      ∀ j, j < 30 → att j = false) ∧
    ((wait_for_ssh att host port).errMsg = none ∨
      (wait_for_ssh att host port).errMsg =
        some (connect_error_msg host port)) ∧
    ((wait_for_ssh att host port).connected = true ↔
      (wait_for_ssh att host port).errMsg = none) ∧
    strContains (connect_error_msg host port) host = true ∧
    strContains (connect_error_msg host port) (Nat.repr port) = true := by
  have hb := wait_go_bounds att host port 30 (by omega) 0 0
  have he := wait_go_err att host port 30 (by omega) 0 0
  have hw : wait_for_ssh att host port =
      wait_for_ssh_go att host port 30 0 0 := rfl
  rw [hw]
  refine ⟨by omega, by omega, ?_, he.2.1, he.2.2,
    connect_error_msg_contains_host host port,
    connect_error_msg_contains_port host port⟩
  rw [he.1]
  constructor
  · intro hall j hj
    exact hall j (by omega) (by omega)
  · intro hall j hj1 hj2
    exact hall j (by omega)

/-! ## Claim C5: ANSI escape stripping -/

/-- Dropping the body of an `ESC [` sequence: everything up to and
including the first ASCII-alphabetic terminator (or the whole rest when
unterminated). -/
def dropAfterAlpha : List Char → List Char
  | [] => []
  | c :: cs => if isAsciiAlpha c then cs else dropAfterAlpha cs

theorem dropAfterAlpha_sublist (l : List Char) : List.Sublist (dropAfterAlpha l) l := by
  induction l with
  | nil => simp [dropAfterAlpha]
  | cons c cs ih =>
    rw [dropAfterAlpha]
    by_cases h : isAsciiAlpha c = true
    · rw [if_pos h]
      exact List.sublist_cons_self c cs
    · rw [if_neg h]
      exact ih.trans (List.sublist_cons_self c cs)

theorem stripAnsiAux_sublist_len :
    ∀ (n : Nat) (l : List Char), l.length ≤ n → ∀ b, List.Sublist (stripAnsiAux b l) l := by
  intro n
  induction n with
  | zero =>
    intro l hl b
    have hnil : l = [] := by cases l <;> simp_all
    subst hnil
    simp [stripAnsiAux]
  | succ n ih =>
    intro l hl b
    match l with
    | [] => simp [stripAnsiAux]
    | [c] =>
      cases b
      · by_cases hc : c = escChar <;> simp [stripAnsiAux, hc]
      · by_cases ha : isAsciiAlpha c = true <;> simp [stripAnsiAux, ha]
    | c :: d :: cs =>
      have hlen1 : (d :: cs).length ≤ n := by
        simp at hl ⊢; omega
      have hlen2 : cs.length ≤ n := by
        simp at hl ⊢; omega
      cases b
      · by_cases hc : c = escChar
        · by_cases hd : d = '['
          · rw [stripAnsiAux, if_pos hc, if_pos hd]
            exact ((ih cs hlen2 true).trans
              (List.sublist_cons_self d cs)).trans
              (List.sublist_cons_self c (d :: cs))
          · rw [stripAnsiAux, if_pos hc, if_neg hd]
            exact (ih (d :: cs) hlen1 false).trans
              (List.sublist_cons_self c (d :: cs))
        · rw [stripAnsiAux, if_neg hc]
          exact (ih (d :: cs) hlen1 false).cons₂ c
      · by_cases ha : isAsciiAlpha c = true
        · rw [stripAnsiAux, if_pos ha]
          exact (ih (d :: cs) hlen1 false).trans
            (List.sublist_cons_self c (d :: cs))
        · rw [stripAnsiAux, if_neg ha]
          exact (ih (d :: cs) hlen1 true).trans
            (List.sublist_cons_self c (d :: cs))

theorem stripAnsiAux_sublist (b : Bool) (l : List Char) :
    List.Sublist (stripAnsiAux b l) l :=
  stripAnsiAux_sublist_len l.length l (Nat.le_refl _) b

/-- The skip mode consumes exactly up to and including the first
ASCII-alphabetic character. -/
theorem stripAnsiAux_true_eq (l : List Char) :
    stripAnsiAux true l = stripAnsiAux false (dropAfterAlpha l) := by
  induction l with
  | nil => simp [stripAnsiAux, dropAfterAlpha]
  | cons c cs ih =>
    by_cases ha : isAsciiAlpha c = true
    · rw [stripAnsiAux, if_pos ha, dropAfterAlpha, if_pos ha]
    · rw [stripAnsiAux, if_neg ha, dropAfterAlpha, if_neg ha]
      exact ih

/-- Escape-free inputs pass through unchanged. -/
theorem stripAnsiAux_id (l : List Char) (h : escChar ∉ l) :
    stripAnsiAux false l = l := by
  induction l with
  | nil => simp [stripAnsiAux]
  | cons c cs ih =>
    have hc : c ≠ escChar := fun he => h (he ▸ List.mem_cons_self c cs)
    cases cs with
    | nil => simp [stripAnsiAux, hc]
    | cons d cs' =>
      rw [stripAnsiAux, if_neg hc]
      rw [ih (fun hm => h (List.mem_cons_of_mem c hm))]

/-- Modelled from the claim's words: remove exactly the escape sequences
`ESC [ … ⟨ASCII-alphabetic⟩`, leaving every other character — including an
ESC not followed by `[` — unchanged and in order. Identical scanning
structure to `stripAnsiAux` except that a lone ESC is kept. -/
def specStripKeepEsc : Bool → List Char → List Char
  | _, [] => []
  | true, c :: cs =>
    if isAsciiAlpha c then specStripKeepEsc false cs else specStripKeepEsc true cs
  | false, [c] => [c]
  | false, c :: d :: cs =>
    if c = escChar ∧ d = '[' then specStripKeepEsc true cs
    else c :: specStripKeepEsc false (d :: cs)

/-- C5 counterexample: on `"a⟨ESC⟩b"` the code also removes the lone ESC,
which is not part of any `ESC [ … letter` escape sequence, so the claim's
"leaves every other character unchanged" fails. -/
theorem strip_ansi_cex :
    strip_ansi_codes "a\x1bb" = "ab" ∧
    (⟨specStripKeepEsc false "a\x1bb".data⟩ : String) = "a\x1bb" ∧
    strip_ansi_codes "a\x1bb" ≠ ⟨specStripKeepEsc false "a\x1bb".data⟩ :=
  ⟨by decide, by decide, by decide⟩

/-- C5 (amended). `strip_ansi_codes` removes exactly the `ESC [ …
⟨ASCII-alphabetic terminator⟩` sequences (discarding the rest of the input
when unterminated) and additionally drops every ESC character not followed
by `[`; every other character is kept unchanged and in its original order
(the output is a sublist of the input). -/
theorem strip_ansi_amended (s : String) :
    List.Sublist (strip_ansi_codes s).data s.data ∧
    (∀ c : Char, c ≠ escChar →
      stripAnsiAux false (c :: s.data) = c :: stripAnsiAux false s.data) ∧
    stripAnsiAux false (escChar :: '[' :: s.data) =
      stripAnsiAux false (dropAfterAlpha s.data) ∧
    (s.data.head? ≠ some '[' →
      stripAnsiAux false (escChar :: s.data) = stripAnsiAux false s.data) ∧
    (escChar ∉ s.data → strip_ansi_codes s = s) := by
  refine ⟨stripAnsiAux_sublist false s.data, ?_, ?_, ?_, ?_⟩
  · intro c hc
    cases hd : s.data with
    | nil => simp [stripAnsiAux, hc]
    | cons d cs => rw [stripAnsiAux, if_neg hc]
  · rw [stripAnsiAux, if_pos rfl, if_pos rfl]
    exact stripAnsiAux_true_eq s.data
  · intro hhead
    cases hd : s.data with
    | nil => simp [stripAnsiAux]
    | cons d cs =>
      have hdne : d ≠ '[' := by
        intro he
        rw [hd, he] at hhead
        simp at hhead
      rw [stripAnsiAux, if_pos rfl, if_neg hdne]
  · intro hmem
    exact strEq_of_data (stripAnsiAux_id s.data hmem)

/-- Witness for C5 at concrete inputs discharging each side condition. -/
theorem strip_ansi_amended_witness :
    List.Sublist (strip_ansi_codes "31mx").data "31mx".data ∧
    stripAnsiAux false ('a' :: "31mx".data) =
      'a' :: stripAnsiAux false "31mx".data ∧
    stripAnsiAux false (escChar :: '[' :: "31mx".data) =
      stripAnsiAux false (dropAfterAlpha "31mx".data) ∧
    stripAnsiAux false (escChar :: "31mx".data) =
      stripAnsiAux false "31mx".data ∧
    strip_ansi_codes "31mx" = "31mx" :=
  ⟨(strip_ansi_amended "31mx").1,
   (strip_ansi_amended "31mx").2.1 'a' (by decide),
   (strip_ansi_amended "31mx").2.2.1,
   (strip_ansi_amended "31mx").2.2.2.1 (by decide),
   (strip_ansi_amended "31mx").2.2.2.2 (by decide)⟩

/-! ## Claim C6: the boot-time document -/

theorem stringSortLe_trans : ∀ a b c : String, stringSortLe a b = true →
    stringSortLe b c = true → stringSortLe a c = true := by
  intro a b c hab hbc
  simp only [stringSortLe, decide_eq_true_eq] at hab hbc ⊢
  exact le_trans hab hbc

theorem stringSortLe_total :
    ∀ a b : String, (stringSortLe a b || stringSortLe b a) = true := by
  intro a b
  rcases le_total a b with h | h <;> simp [stringSortLe, h]

theorem mergeSort_sorted_le (l : List String) :
    (List.mergeSort l stringSortLe).Sorted (· ≤ ·) := by
  have h := List.sorted_mergeSort stringSortLe_trans stringSortLe_total l
  exact h.imp (fun hab => by simpa [stringSortLe] using hab)

theorem collectFragments_go (steps : List StepV) :
    ∀ acc : List String × List CloudInitFile × List String,
      steps.foldl
        (fun acc st =>
          let f := st.to_cloud_init
          (acc.1 ++ f.packages, acc.2.1 ++ f.write_files, acc.2.2 ++ f.runcmd))
        acc =
      (acc.1 ++ (steps.map (fun st => st.to_cloud_init.packages)).flatten,
       acc.2.1 ++ (steps.map (fun st => st.to_cloud_init.write_files)).flatten,
       acc.2.2 ++ (steps.map (fun st => st.to_cloud_init.runcmd)).flatten) := by
  induction steps with
  | nil => intro acc; simp
  | cons st rest ih =>
    intro acc
    simp only [List.foldl_cons, List.map_cons, List.flatten]
    rw [ih]
    simp [List.append_assoc]

theorem collectFragments_eq (steps : List StepV) :
    collectFragments steps =
      ((steps.map (fun st => st.to_cloud_init.packages)).flatten,
       (steps.map (fun st => st.to_cloud_init.write_files)).flatten,
       (steps.map (fun st => st.to_cloud_init.runcmd)).flatten) := by
  have h := collectFragments_go steps ([], [], [])
  simpa [collectFragments] using h

/-- C6. For every manifest (and any serializer and renderer configuration),
the rendered boot-time document begins with the fixed `#cloud-config` type
marker line; the assembled packages list is lexicographically sorted and
duplicate-free no matter how many steps contribute overlapping packages;
and the assembled `write_files` and `runcmd` lists are the per-step
fragments concatenated in step order. -/
theorem cloud_init_render_spec (r : CloudInitRenderer)
    (toYaml : CloudInitCfg → String) (m : Manifest) :
    "#cloud-config".data.isPrefixOf (CloudInitRenderer.render r toYaml m).data = true ∧
    (r.assemble m).packages.Sorted (· ≤ ·) ∧
    (r.assemble m).packages.Nodup ∧
    (r.assemble m).write_files =
      (m.steps.map (fun st => st.to_cloud_init.write_files)).flatten ∧
    (r.assemble m).runcmd =
      (m.steps.map (fun st => st.to_cloud_init.runcmd)).flatten := by
  refine ⟨?_, ?_, ?_, ?_, ?_⟩
  · rw [List.isPrefixOf_iff_prefix]
    exact ⟨'\n' :: (toYaml (r.assemble m)).data, rfl⟩
  · show (dedupConsec (List.mergeSort (collectFragments m.steps).1
      stringSortLe)).Sorted (· ≤ ·)
    exact dedupConsec_sorted_le _ (mergeSort_sorted_le _)
  · show (dedupConsec (List.mergeSort (collectFragments m.steps).1
      stringSortLe)).Nodup
    exact dedupConsec_nodup _ (mergeSort_sorted_le _)
  · show (collectFragments m.steps).2.1 = _
    rw [collectFragments_eq]
  · show (collectFragments m.steps).2.2 = _
    rw [collectFragments_eq]

/-! ## Claim C4: the progress-marker grammar -/

/-- The action names of the marker wire format. -/
def actionStrings : List String := ["START", "DONE", "SKIP", "FAIL", "COMPLETE"]

theorem actionStrings_no_colon {a : String} (h : a ∈ actionStrings) :
    ':' ∉ a.data := by
  simp only [actionStrings, List.mem_cons, List.not_mem_nil, or_false] at h
  rcases h with h | h | h | h | h <;> subst h <;> decide

theorem matchAction_isSome_iff (a : String) (n : Nat) (d : String) :
    (matchAction a n d).isSome = true ↔ a ∈ actionStrings := by
  by_cases h1 : a = "START"
  · simp [matchAction, actionStrings, h1]
  · by_cases h2 : a = "DONE"
    · simp [matchAction, actionStrings, h1, h2]
    · by_cases h3 : a = "SKIP"
      · simp [matchAction, actionStrings, h1, h2, h3]
      · by_cases h4 : a = "FAIL"
        · simp [matchAction, actionStrings, h1, h2, h3, h4]
        · by_cases h5 : a = "COMPLETE"
          · simp [matchAction, actionStrings, h1, h2, h3, h4, h5]
          · simp [matchAction, actionStrings, h1, h2, h3, h4, h5]

/-- Modelled from the claim's words: the exact wire format
`TENGU_STEP:<ACTION>:<index>:<description>` with a known action and an
all-digit index. -/
def matchesWireExact (clean : String) : Prop :=
  ∃ act idx desc : String,
    act ∈ actionStrings ∧ idx.data ≠ [] ∧ idx.data.all isAsciiDigit = true ∧
    clean = "TENGU_STEP:" ++ act ++ ":" ++ idx ++ ":" ++ desc

/-- The format the code actually accepts: the description field (with its
leading colon) may be absent entirely, and the index is anything
`usize::from_str` accepts. -/
def matchesWireLoose (clean : String) : Prop :=
  ∃ act idx rest : String,
    act ∈ actionStrings ∧ (parseUsize idx).isSome = true ∧
    (rest = "" ∨ ∃ d : String, rest = ":" ++ d) ∧
    clean = "TENGU_STEP:" ++ act ++ ":" ++ idx ++ rest

theorem wire_data_norm (act idx rest : String) :
    ("TENGU_STEP:" ++ act ++ ":" ++ idx ++ rest).data =
      "TENGU_STEP".data ++ ':' :: (act.data ++ ':' :: (idx.data ++ rest.data)) := by
  have h1 : ("TENGU_STEP:".data : List Char) = "TENGU_STEP".data ++ [':'] := rfl
  have h2 : ((":" : String).data : List Char) = [':'] := rfl
  simp [String.data_append, h1, h2, List.append_assoc]

theorem splitnL_step (n : Nat) (sep : Char) (a r : List Char)
    (ha : sep ∉ a) :
    splitnL (n + 2) sep (a ++ sep :: r) = a :: splitnL (n + 1) sep r := by
  have h := (splitOnceL_eq_some_iff sep (a ++ sep :: r) a r).mpr ⟨rfl, ha⟩
  simp [splitnL, h]

theorem splitnL_nosep (n : Nat) (sep : Char) (cs : List Char)
    (h : sep ∉ cs) :
    splitnL (n + 2) sep cs = [cs] := by
  have hn := (splitOnceL_eq_none_iff sep cs).mpr h
  simp [splitnL, hn]

theorem splitOnce_decomp_unique {sep : Char} {cs a b a2 b2 : List Char}
    (h1 : cs = a ++ sep :: b) (ha1 : sep ∉ a)
    (h2 : cs = a2 ++ sep :: b2) (ha2 : sep ∉ a2) : a = a2 ∧ b = b2 := by
  have e1 : splitOnceL sep cs = some (a, b) :=
    (splitOnceL_eq_some_iff sep cs a b).mpr ⟨h1, ha1⟩
  have e2 : splitOnceL sep cs = some (a2, b2) :=
    (splitOnceL_eq_some_iff sep cs a2 b2).mpr ⟨h2, ha2⟩
  rw [e1] at e2
  injection e2 with e2
  injection e2 with e3 e4
  exact ⟨e3, e4⟩

/-- Core characterization of `parse_marker_clean` over an arbitrary clean
character list. -/
theorem parse_marker_clean_isSome_iff (cs : List Char) :
    (parse_marker_clean cs).isSome = true ↔ matchesWireLoose ⟨cs⟩ := by
  have hTnc : (':' : Char) ∉ "TENGU_STEP".data := by decide
  by_cases hpre : tengu_step_prefix.isPrefixOf cs = true
  · -- the prefix is present: cs = "TENGU_STEP" ++ ':' :: r
    rcases List.isPrefixOf_iff_prefix.mp hpre with ⟨r, hr⟩
    have hcs : cs = "TENGU_STEP".data ++ ':' :: r := by
      rw [← hr]; rfl
    rw [parse_marker_clean, if_pos hpre]
    cases hsplit1 : splitOnceL ':' r with
    | none =>
      have hnc : (':' : Char) ∉ r := (splitOnceL_eq_none_iff ':' r).mp hsplit1
      have hparts : splitnL 4 ':' cs = ["TENGU_STEP".data, r] := by
        rw [hcs, splitnL_step 2 ':' _ _ hTnc, splitnL_nosep 1 ':' r hnc]
      rw [hparts]
      refine iff_of_false (by simp [parse_fields]) ?_
      rintro ⟨act2, idx2, rest2, hmem, hidx, hrest, heq⟩
      have hdata := congrArg String.data heq
      rw [wire_data_norm] at hdata
      have hdata2 : ("TENGU_STEP".data ++ ':' :: r : List Char) =
          "TENGU_STEP".data ++ ':' ::
            (act2.data ++ ':' :: (idx2.data ++ rest2.data)) := by
        rw [← hcs]; exact hdata
      have hre := List.append_cancel_left hdata2
      injection hre with _ hre
      exact hnc (by rw [hre]; simp)
    | some p =>
      obtain ⟨act, r2⟩ := p
      have hdec := (splitOnceL_eq_some_iff ':' r act r2).mp hsplit1
      cases hsplit2 : splitOnceL ':' r2 with
      | none =>
        have hnc2 : (':' : Char) ∉ r2 :=
          (splitOnceL_eq_none_iff ':' r2).mp hsplit2
        have hparts : splitnL 4 ':' cs = ["TENGU_STEP".data, act, r2] := by
          rw [hcs, splitnL_step 2 ':' _ _ hTnc, hdec.1,
            splitnL_step 1 ':' _ _ hdec.2, splitnL_nosep 0 ':' r2 hnc2]
        rw [hparts]
        simp only [parse_fields]
        cases hup : parseUsizeL r2 with
        | none =>
          refine iff_of_false (by simp) ?_
          rintro ⟨act2, idx2, rest2, hmem, hidx, hrest, heq⟩
          have hdata := congrArg String.data heq
          rw [wire_data_norm] at hdata
          have hdata2 : ("TENGU_STEP".data ++ ':' :: r : List Char) =
              "TENGU_STEP".data ++ ':' ::
                (act2.data ++ ':' :: (idx2.data ++ rest2.data)) := by
            rw [← hcs]; exact hdata
          have hre := List.append_cancel_left hdata2
          injection hre with _ hre
          have huniq := splitOnce_decomp_unique hdec.1 hdec.2 hre
            (actionStrings_no_colon hmem)
          rcases hrest with hrest | ⟨d, hrest⟩
          · have hr2 : r2 = idx2.data := by
              rw [huniq.2, hrest]
              simp
            have hsome : (parseUsizeL r2).isSome = true := by
              rw [hr2]; exact hidx
            rw [hup] at hsome
            cases hsome
          · apply hnc2
            rw [huniq.2, hrest]
            simp [String.data_append]
        | some n =>
          constructor
          · intro hsome
            have hmem := (matchAction_isSome_iff ⟨act⟩ n ⟨List.headD [] []⟩).mp hsome
            refine ⟨⟨act⟩, ⟨r2⟩, "", hmem, ?_, Or.inl rfl, ?_⟩
            · show (parseUsizeL r2).isSome = true
              rw [hup]; rfl
            · apply strEq_of_data
              rw [wire_data_norm]
              show cs = "TENGU_STEP".data ++ ':' ::
                (act ++ ':' :: (r2 ++ ("" : String).data))
              rw [hcs, hdec.1]
              simp
          · rintro ⟨act2, idx2, rest2, hmem, hidx, hrest, heq⟩
            have hdata := congrArg String.data heq
            rw [wire_data_norm] at hdata
            have hdata2 : ("TENGU_STEP".data ++ ':' :: r : List Char) =
                "TENGU_STEP".data ++ ':' ::
                  (act2.data ++ ':' :: (idx2.data ++ rest2.data)) := by
              rw [← hcs]; exact hdata
            have hre := List.append_cancel_left hdata2
            injection hre with _ hre
            have huniq := splitOnce_decomp_unique hdec.1 hdec.2 hre
              (actionStrings_no_colon hmem)
            have hact : (⟨act⟩ : String) = act2 := strEq_of_data huniq.1
            rw [matchAction_isSome_iff, hact]
            exact hmem
      | some q =>
        obtain ⟨idx, r3⟩ := q
        have hdec2 := (splitOnceL_eq_some_iff ':' r2 idx r3).mp hsplit2
        have hparts : splitnL 4 ':' cs = ["TENGU_STEP".data, act, idx, r3] := by
          rw [hcs, splitnL_step 2 ':' _ _ hTnc, hdec.1,
            splitnL_step 1 ':' _ _ hdec.2, hdec2.1,
            splitnL_step 0 ':' _ _ hdec2.2]
          rfl
        rw [hparts]
        simp only [parse_fields]
        cases hup : parseUsizeL idx with
        | none =>
          refine iff_of_false (by simp) ?_
          rintro ⟨act2, idx2, rest2, hmem, hidx, hrest, heq⟩
          have hdata := congrArg String.data heq
          rw [wire_data_norm] at hdata
          have hdata2 : ("TENGU_STEP".data ++ ':' :: r : List Char) =
              "TENGU_STEP".data ++ ':' ::
                (act2.data ++ ':' :: (idx2.data ++ rest2.data)) := by
            rw [← hcs]; exact hdata
          have hre := List.append_cancel_left hdata2
          injection hre with _ hre
          have huniq := splitOnce_decomp_unique hdec.1 hdec.2 hre
            (actionStrings_no_colon hmem)
          rcases hrest with hrest | ⟨d, hrest⟩
          · have hcolon : (':' : Char) ∈ r2 := by
              rw [hdec2.1]; simp
            have hr2 : r2 = idx2.data := by
              rw [huniq.2, hrest]; simp
            rw [hr2] at hcolon
            exact parseUsizeL_no_colon hidx hcolon
          · have hr2eq : r2 = idx2.data ++ ':' :: d.data := by
              rw [huniq.2, hrest]
              simp [String.data_append]
            have huniq2 := splitOnce_decomp_unique hdec2.1 hdec2.2 hr2eq
              (parseUsizeL_no_colon hidx)
            have hsome : (parseUsizeL idx).isSome = true := by
              rw [huniq2.1]; exact hidx
            rw [hup] at hsome
            cases hsome
        | some n =>
          constructor
          · intro hsome
            have hmem := (matchAction_isSome_iff ⟨act⟩ n
              ⟨List.headD [r3] []⟩).mp hsome
            refine ⟨⟨act⟩, ⟨idx⟩, ":" ++ ⟨r3⟩, hmem, ?_,
              Or.inr ⟨⟨r3⟩, rfl⟩, ?_⟩
            · show (parseUsizeL idx).isSome = true
              rw [hup]; rfl
            · apply strEq_of_data
              rw [wire_data_norm]
              show cs = "TENGU_STEP".data ++ ':' ::
                (act ++ ':' :: (idx ++ ((":" ++ (⟨r3⟩ : String)).data)))
              rw [hcs, hdec.1, hdec2.1]
              simp [String.data_append]
          · rintro ⟨act2, idx2, rest2, hmem, hidx, hrest, heq⟩
            have hdata := congrArg String.data heq
            rw [wire_data_norm] at hdata
            have hdata2 : ("TENGU_STEP".data ++ ':' :: r : List Char) =
                "TENGU_STEP".data ++ ':' ::
                  (act2.data ++ ':' :: (idx2.data ++ rest2.data)) := by
              rw [← hcs]; exact hdata
            have hre := List.append_cancel_left hdata2
            injection hre with _ hre
            have huniq := splitOnce_decomp_unique hdec.1 hdec.2 hre
              (actionStrings_no_colon hmem)
            have hact : (⟨act⟩ : String) = act2 := strEq_of_data huniq.1
            rw [matchAction_isSome_iff, hact]
            exact hmem
  · -- no prefix present: nothing is parsed and no decomposition exists
    rw [parse_marker_clean, if_neg hpre]
    refine iff_of_false (by simp) ?_
    rintro ⟨act2, idx2, rest2, hmem, hidx, hrest, heq⟩
    apply hpre
    have hdata := congrArg String.data heq
    rw [wire_data_norm] at hdata
    rw [List.isPrefixOf_iff_prefix]
    refine ⟨act2.data ++ ':' :: (idx2.data ++ rest2.data), ?_⟩
    have hdata2 : cs =
        "TENGU_STEP".data ++ ':' :: (act2.data ++ ':' :: (idx2.data ++ rest2.data)) :=
      hdata
    rw [hdata2]
    rfl

/-- C4 counterexample: the three-field line `TENGU_STEP:DONE:5` (no
description field at all) is accepted by the parser although it does not
match the four-field wire format `TENGU_STEP:<ACTION>:<index>:<description>`. -/
theorem parse_marker_wire_cex :
    parse_progress_marker "TENGU_STEP:DONE:5" = some (ProgressMarker.done 5 "") ∧
    ¬ matchesWireExact ⟨stripAnsiAux false (trimL "TENGU_STEP:DONE:5".data)⟩ := by
  constructor
  · decide
  · rintro ⟨act, idx, desc, hmem, hne, hdig, heq⟩
    have hclean : (⟨stripAnsiAux false (trimL "TENGU_STEP:DONE:5".data)⟩ : String) =
        "TENGU_STEP:DONE:5" := by decide
    rw [hclean] at heq
    have hC := congrArg (fun s : String => s.data.count ':') heq
    simp only [String.data_append, List.count_append] at hC
    have h1 : ("TENGU_STEP:DONE:5".data).count ':' = 2 := by decide
    have h2 : ("TENGU_STEP:".data).count ':' = 1 := by decide
    have h3 : (((":" : String)).data).count ':' = 1 := by decide
    simp only [h1, h2, h3] at hC
    omega

/-- C4 (amended). `parse_progress_marker` yields an event exactly for the
lines whose trimmed, ANSI-stripped form is
`TENGU_STEP:<ACTION>:<index><rest>` where ACTION ∈ {START, DONE, SKIP,
FAIL, COMPLETE}, the index is accepted by `usize` parsing (optional
leading `+`, ASCII digits, below `2^64`), and `<rest>` is either empty
(three-field form, empty description) or a colon followed by an arbitrary
description; every other line yields nothing, so non-marker lines are
ignored rather than matched by content keywords. -/
theorem parse_marker_wire_amended (line : String) :
    (parse_progress_marker line).isSome = true ↔
      matchesWireLoose ⟨stripAnsiAux false (trimL line.data)⟩ :=
  parse_marker_clean_isSome_iff (stripAnsiAux false (trimL line.data))

/-! ## Claim C1: idempotence of the rendered commands

Supporting lemmas: no-op characterizations of the primitive state
operations, then per-variant idempotence of the step semantics. -/

theorem sha256hex_ne_empty (c : String) : sha256hex c ≠ "" := by
  intro h
  have h2 := congrArg (fun s : String => s.data.length) h
  simp [sha256hex, String.data_append] at h2

theorem mkdirP_noop (s : SysState) (p : String) (h : s.dirs p = true) :
    mkdirP s p = s := by
  unfold mkdirP
  rw [updFn_noop _ _ _ h]

theorem chmodDir_noop (s : SysState) (p m : String)
    (h : s.dirPerms p = some m) : chmodDir s p m = s := by
  unfold chmodDir
  rw [updFn_noop _ _ _ h]

theorem chownDir_noop (s : SysState) (p o : String)
    (h : s.dirOwners p = some o) : chownDir s p o = s := by
  unfold chownDir
  rw [updFn_noop _ _ _ h]

theorem chownRec_noop (s : SysState) (p o : String)
    (h : s.recOwners p = some o) : chownRec s p o = s := by
  unfold chownRec
  rw [updFn_noop _ _ _ h]

theorem writeContent_noop (s : SysState) (p c : String) (f : SysFile)
    (h : s.files p = some f) (hc : f.content = c) : writeContent s p c = s := by
  have hv : (some ⟨c, filePermsAt s p, fileOwnerAt s p⟩ : Option SysFile) =
      s.files p := by
    simp only [filePermsAt, fileOwnerAt, h, Option.some.injEq]
    rw [← hc]
  unfold writeContent
  rw [hv, updFn_noop _ _ _ rfl]

theorem chmodFile_noop (s : SysState) (p m : String) (f : SysFile)
    (h : s.files p = some f) (hm : f.perms = some m) : chmodFile s p m = s := by
  have hv : ((s.files p).map (fun f => (⟨f.content, some m, f.owner⟩ : SysFile))) =
      s.files p := by
    rw [h, ← hm]
    rfl
  unfold chmodFile
  rw [hv, updFn_noop _ _ _ rfl]

theorem chmodFile_noop_none (s : SysState) (p m : String)
    (h : s.files p = none) : chmodFile s p m = s := by
  have hv : ((s.files p).map (fun f => (⟨f.content, some m, f.owner⟩ : SysFile))) =
      s.files p := by
    rw [h]; rfl
  unfold chmodFile
  rw [hv, updFn_noop _ _ _ rfl]

theorem chownFile_noop (s : SysState) (p o : String) (f : SysFile)
    (h : s.files p = some f) (ho : f.owner = some o) : chownFile s p o = s := by
  have hv : ((s.files p).map (fun f => (⟨f.content, f.perms, some o⟩ : SysFile))) =
      s.files p := by
    rw [h, ← ho]
    rfl
  unfold chownFile
  rw [hv, updFn_noop _ _ _ rfl]

theorem chownFile_noop_none (s : SysState) (p o : String)
    (h : s.files p = none) : chownFile s p o = s := by
  have hv : ((s.files p).map (fun f => (⟨f.content, f.perms, some o⟩ : SysFile))) =
      s.files p := by
    rw [h]; rfl
  unfold chownFile
  rw [hv, updFn_noop _ _ _ rfl]

theorem getContent_mkdirP (s : SysState) (d q : String) :
    getContent (mkdirP s d) q = getContent s q := rfl

theorem files_chmodFile_other (s : SysState) (p m q : String) (h : q ≠ p) :
    (chmodFile s p m).files q = s.files q := by
  simp [chmodFile, updFn, h]

theorem getContent_chmodFile (s : SysState) (p m q : String) :
    getContent (chmodFile s p m) q = getContent s q := by
  by_cases hq : q = p
  · subst hq
    simp only [getContent, chmodFile, updFn_same]
    cases s.files q <;> rfl
  · simp [getContent, chmodFile, updFn, hq]

theorem getContent_chownFile (s : SysState) (p o q : String) :
    getContent (chownFile s p o) q = getContent s q := by
  by_cases hq : q = p
  · subst hq
    simp only [getContent, chownFile, updFn_same]
    cases s.files q <;> rfl
  · simp [getContent, chownFile, updFn, hq]

theorem getContent_writeContent_same (s : SysState) (p c : String) :
    getContent (writeContent s p c) p = some c := by
  simp [getContent, writeContent, updFn]

theorem getContent_applyPermOpt (po : Option String) (p : String)
    (s : SysState) (q : String) :
    getContent (applyPermOpt po p s) q = getContent s q := by
  cases po with
  | none => rfl
  | some m => exact getContent_chmodFile s p m q

theorem getContent_applyOwnerOpt (oo : Option String) (p : String)
    (s : SysState) (q : String) :
    getContent (applyOwnerOpt oo p s) q = getContent s q := by
  cases oo with
  | none => rfl
  | some o => exact getContent_chownFile s p o q

theorem dirs_applyPermOpt (po : Option String) (p : String) (s : SysState) :
    (applyPermOpt po p s).dirs = s.dirs := by
  cases po <;> rfl

theorem dirs_applyOwnerOpt (oo : Option String) (p : String) (s : SysState) :
    (applyOwnerOpt oo p s).dirs = s.dirs := by
  cases oo <;> rfl

theorem dirs_writeContent (s : SysState) (p c : String) :
    (writeContent s p c).dirs = s.dirs := rfl

theorem dirs_mkdirP_self (s : SysState) (p : String) :
    (mkdirP s p).dirs p = true := by
  simp [mkdirP, updFn]

/-! ### Idempotence of the simpler step variants -/

theorem runInstallDeb_idem (d : InstallDebFromUrl) (s : SysState) :
    runInstallDeb d (runInstallDeb d s) = runInstallDeb d s := by
  unfold runInstallDeb removeFilePath installPkg writeContent
  apply SysState.ext <;> simp [updFn_updFn]

theorem setEnabledIf_post (b : Bool) (n : String) (s : SysState)
    (h : b = true) : (setEnabledIf b n s).enabled n = true := by
  unfold setEnabledIf
  split_ifs <;> simp_all [updFn_same]

theorem setEnabledIf_noop (b : Bool) (n : String) (s : SysState)
    (h : s.enabled n = true) : setEnabledIf b n s = s := by
  unfold setEnabledIf
  split_ifs <;> simp_all

theorem setActiveIf_post (b : Bool) (n : String) (s : SysState)
    (h : b = true) : (setActiveIf b n s).active n = true := by
  unfold setActiveIf
  split_ifs <;> simp_all [updFn_same]

theorem setActiveIf_noop (b : Bool) (n : String) (s : SysState)
    (h : s.active n = true) : setActiveIf b n s = s := by
  unfold setActiveIf
  split_ifs <;> simp_all

theorem setActiveIf_enabled (b : Bool) (n : String) (s : SysState) :
    (setActiveIf b n s).enabled = s.enabled := by
  unfold setActiveIf
  split_ifs <;> rfl

theorem setEnabledIf_active (b : Bool) (n : String) (s : SysState) :
    (setEnabledIf b n s).active = s.active := by
  unfold setEnabledIf
  split_ifs <;> rfl

theorem runEnsureService_idem (sv : EnsureService) (s : SysState) :
    runEnsureService sv (runEnsureService sv s) = runEnsureService sv s := by
  unfold runEnsureService
  by_cases he : sv.enabled = true
  · have h1 : (setActiveIf sv.started sv.name
        (setEnabledIf sv.enabled sv.name s)).enabled sv.name = true := by
      rw [setActiveIf_enabled]
      exact setEnabledIf_post _ _ _ he
    rw [setEnabledIf_noop _ _ _ h1]
    by_cases hs : sv.started = true
    · exact setActiveIf_noop _ _ _ (setActiveIf_post _ _ _ hs)
    · have hb : sv.started = false := by
        revert hs; cases sv.started <;> simp
      rw [hb]
      rfl
  · have hb : sv.enabled = false := by
      revert he; cases sv.enabled <;> simp
    rw [hb]
    show setActiveIf sv.started sv.name
      (setActiveIf sv.started sv.name (setEnabledIf false sv.name s)) = _
    by_cases hs : sv.started = true
    · exact setActiveIf_noop _ _ _ (setActiveIf_post _ _ _ hs)
    · have hb2 : sv.started = false := by
        revert hs; cases sv.started <;> simp
      rw [hb2]
      rfl

theorem ufwAddRules_factor (rules : List UfwRule) (s : SysState) :
    ufwAddRules rules s =
      { s with ufwAllowed :=
          rules.foldl (fun g r => updFn g r.allow true) s.ufwAllowed } := by
  induction rules generalizing s with
  | nil => rfl
  | cons r rest ih =>
    show ufwAddRules rest { s with ufwAllowed := updFn s.ufwAllowed r.allow true } = _
    rw [ih]
    rfl

theorem ufwFoldFn_point (rules : List UfwRule) (g : String → Bool) (q : String) :
    rules.foldl (fun g r => updFn g r.allow true) g q =
      (g q || rules.any (fun r => r.allow == q)) := by
  induction rules generalizing g with
  | nil => simp
  | cons r rest ih =>
    simp only [List.foldl_cons, List.any_cons]
    rw [ih]
    by_cases hq : r.allow = q
    · simp [updFn, hq]
    · have h2 : (r.allow == q) = false := by
        simpa using hq
      have hq2 : ¬q = r.allow := fun h => hq h.symm
      simp [updFn, h2, hq2]

theorem ufwSetDefaults_noop (f : EnsureFirewall) (s : SysState)
    (h1 : s.ufwDefaultIn = f.default_incoming)
    (h2 : s.ufwDefaultOut = f.default_outgoing) : ufwSetDefaults f s = s := by
  cases s
  unfold ufwSetDefaults
  simp_all

theorem ufwAddRules_noop (rules : List UfwRule) (s : SysState)
    (h : rules.foldl (fun g r => updFn g r.allow true) s.ufwAllowed =
      s.ufwAllowed) : ufwAddRules rules s = s := by
  rw [ufwAddRules_factor, h]

theorem ufwEnableIfInactive_post (s : SysState) :
    (ufwEnableIfInactive s).ufwActive = true := by
  unfold ufwEnableIfInactive
  split_ifs with h
  · exact h
  · rfl

theorem ufwEnableIfInactive_noop (s : SysState) (h : s.ufwActive = true) :
    ufwEnableIfInactive s = s := by
  unfold ufwEnableIfInactive
  rw [if_pos h]

theorem ufwEnableIfInactive_ufwAllowed (s : SysState) :
    (ufwEnableIfInactive s).ufwAllowed = s.ufwAllowed := by
  unfold ufwEnableIfInactive
  split_ifs <;> rfl

theorem ufwEnableIfInactive_defIn (s : SysState) :
    (ufwEnableIfInactive s).ufwDefaultIn = s.ufwDefaultIn := by
  unfold ufwEnableIfInactive
  split_ifs <;> rfl

theorem ufwEnableIfInactive_defOut (s : SysState) :
    (ufwEnableIfInactive s).ufwDefaultOut = s.ufwDefaultOut := by
  unfold ufwEnableIfInactive
  split_ifs <;> rfl

theorem ufwAddRules_defIn (rules : List UfwRule) (s : SysState) :
    (ufwAddRules rules s).ufwDefaultIn = s.ufwDefaultIn := by
  rw [ufwAddRules_factor]

theorem ufwAddRules_defOut (rules : List UfwRule) (s : SysState) :
    (ufwAddRules rules s).ufwDefaultOut = s.ufwDefaultOut := by
  rw [ufwAddRules_factor]

theorem ufwAddRules_ufwAllowed (rules : List UfwRule) (s : SysState) :
    (ufwAddRules rules s).ufwAllowed =
      rules.foldl (fun g r => updFn g r.allow true) s.ufwAllowed := by
  rw [ufwAddRules_factor]

theorem ufwFoldFn_idem (rules : List UfwRule) (g : String → Bool) :
    rules.foldl (fun g r => updFn g r.allow true)
      (rules.foldl (fun g r => updFn g r.allow true) g) =
    rules.foldl (fun g r => updFn g r.allow true) g := by
  funext q
  rw [ufwFoldFn_point, ufwFoldFn_point]
  cases g q <;> cases rules.any (fun r => r.allow == q) <;> simp

theorem runEnsureFirewall_idem (f : EnsureFirewall) (s : SysState) :
    runEnsureFirewall f (runEnsureFirewall f s) = runEnsureFirewall f s := by
  unfold runEnsureFirewall
  have hd1 : (ufwEnableIfInactive (ufwAddRules f.rules
      (ufwSetDefaults f s))).ufwDefaultIn = f.default_incoming := by
    rw [ufwEnableIfInactive_defIn, ufwAddRules_defIn]
    rfl
  have hd2 : (ufwEnableIfInactive (ufwAddRules f.rules
      (ufwSetDefaults f s))).ufwDefaultOut = f.default_outgoing := by
    rw [ufwEnableIfInactive_defOut, ufwAddRules_defOut]
    rfl
  rw [ufwSetDefaults_noop f _ hd1 hd2]
  have ha : f.rules.foldl (fun g r => updFn g r.allow true)
      (ufwEnableIfInactive (ufwAddRules f.rules
        (ufwSetDefaults f s))).ufwAllowed =
      (ufwEnableIfInactive (ufwAddRules f.rules
        (ufwSetDefaults f s))).ufwAllowed := by
    rw [ufwEnableIfInactive_ufwAllowed, ufwAddRules_ufwAllowed]
    exact ufwFoldFn_idem _ _
  rw [ufwAddRules_noop _ _ ha]
  exact ufwEnableIfInactive_noop _ (ufwEnableIfInactive_post _)

theorem mem_setAssoc_self (l : List (String × String)) (k v : String) :
    (k, v) ∈ setAssoc l k v := by
  unfold setAssoc
  split_ifs with h
  · rcases List.any_eq_true.mp h with ⟨e, he, hek⟩
    refine List.mem_map.mpr ⟨e, he, ?_⟩
    simp only [decide_eq_true_eq] at hek
    rw [if_pos hek]
  · exact List.mem_append_right _ (List.mem_cons_self _ _)

theorem strContains_left_part (pre suf : String) :
    strContains (pre ++ suf) pre = true := by
  rw [strContains_iff]
  exact ⟨[], suf.data, by simp⟩

theorem ensureKeyring_post (r : Repository) (s : SysState) :
    ((ensureKeyring r s).files r.keyring_path).isSome = true := by
  unfold ensureKeyring
  split_ifs with h
  · exact h
  · simp [writeContent, updFn]

theorem ensureKeyring_noop (r : Repository) (s : SysState)
    (h : (s.files r.keyring_path).isSome = true) : ensureKeyring r s = s := by
  unfold ensureKeyring
  rw [if_pos h]

theorem ensureRepoLine_files (n : String) (r : Repository) (s : SysState) :
    (ensureRepoLine n r s).files = s.files := by
  unfold ensureRepoLine
  split_ifs <;> rfl

theorem installIfAbsent_files (n : String) (s : SysState) :
    (installIfAbsent n s).files = s.files := by
  unfold installIfAbsent installPkg
  split_ifs <;> rfl

theorem installIfAbsent_aptSources (n : String) (s : SysState) :
    (installIfAbsent n s).aptSources = s.aptSources := by
  unfold installIfAbsent installPkg
  split_ifs <;> rfl

theorem ensureRepoLine_post (n : String) (r : Repository) (s : SysState) :
    sourcesHasLine (ensureRepoLine n r s) r.repo_line = true := by
  unfold ensureRepoLine
  split_ifs with h
  · exact h
  · show (setAssoc s.aptSources n (r.repo_line ++ "\n")).any
      (fun e => strContains e.2 r.repo_line) = true
    refine List.any_eq_true.mpr ⟨(n, r.repo_line ++ "\n"),
      mem_setAssoc_self _ _ _, ?_⟩
    simpa using strContains_left_part r.repo_line "\n"

theorem ensureRepoLine_noop (n : String) (r : Repository) (s : SysState)
    (h : sourcesHasLine s r.repo_line = true) : ensureRepoLine n r s = s := by
  unfold ensureRepoLine
  rw [if_pos h]

theorem installIfAbsent_post (n : String) (s : SysState) :
    (installIfAbsent n s).installed n = true := by
  unfold installIfAbsent installPkg
  split_ifs with h
  · exact h
  · simp [updFn_same]

theorem installIfAbsent_noop (n : String) (s : SysState)
    (h : s.installed n = true) : installIfAbsent n s = s := by
  unfold installIfAbsent
  rw [if_pos h]

theorem sourcesHasLine_installIfAbsent (n line : String) (s : SysState) :
    sourcesHasLine (installIfAbsent n s) line = sourcesHasLine s line := by
  unfold sourcesHasLine
  rw [installIfAbsent_aptSources]

theorem runInstallPackage_idem (p : InstallPackage) (s : SysState) :
    runInstallPackage p (runInstallPackage p s) = runInstallPackage p s := by
  unfold runInstallPackage
  cases hrep : p.repository with
  | none =>
    exact installIfAbsent_noop _ _ (installIfAbsent_post _ _)
  | some r =>
    show installIfAbsent p.name (ensureRepoLine p.name r (ensureKeyring r
      (installIfAbsent p.name (ensureRepoLine p.name r (ensureKeyring r s))))) =
      installIfAbsent p.name (ensureRepoLine p.name r (ensureKeyring r s))
    have hk : (((installIfAbsent p.name
        (ensureRepoLine p.name r (ensureKeyring r s))).files
          r.keyring_path)).isSome = true := by
      rw [installIfAbsent_files, ensureRepoLine_files]
      exact ensureKeyring_post r s
    rw [ensureKeyring_noop _ _ hk]
    have hl : sourcesHasLine (installIfAbsent p.name
        (ensureRepoLine p.name r (ensureKeyring r s))) r.repo_line = true := by
      rw [sourcesHasLine_installIfAbsent]
      exact ensureRepoLine_post _ _ _
    rw [ensureRepoLine_noop _ _ _ hl]
    exact installIfAbsent_noop _ _ (installIfAbsent_post _ _)

theorem runRunCommand_idem (env : CmdEnv) (r : RunCommand) (s : SysState)
    (hexec : ∀ s, env.exec r.command (env.exec r.command s) =
      env.exec r.command s) :
    runRunCommand env r (runRunCommand env r s) = runRunCommand env r s := by
  unfold runRunCommand
  cases r.unless_cmd with
  | none => exact hexec s
  | some u =>
    by_cases h1 : env.eval u s = true
    · simp [h1]
    · simp only [h1, Bool.false_eq_true, if_false]
      by_cases h2 : env.eval u (env.exec r.command s) = true
      · simp [h2]
      · simp [h2, hexec]

/-! ### Idempotence of `EnsureDirectory` and `WriteFile` -/

theorem runEnsureDirectory_idem (d : EnsureDirectory) (s : SysState) :
    runEnsureDirectory d (runEnsureDirectory d s) = runEnsureDirectory d s := by
  unfold runEnsureDirectory
  cases d.permissions <;> cases d.owner <;>
    apply SysState.ext <;>
    simp [applyDirPermOpt, applyDirOwnerOpt, chmodDir, chownDir, mkdirP,
      updFn_updFn]

/-- `runWriteFile` with the `let`s and the inert `mkdir -p` unfolded. -/
theorem runWriteFile_eq (w : WriteFile) (s : SysState) :
    runWriteFile w s =
      applyOwnerOpt w.owner w.path (applyPermOpt w.permissions w.path
        (if (match getContent s w.path with
             | some c => sha256hex c
             | none => "") = w.content_hash
         then mkdirP s (dirnameStr w.path)
         else writeContent (mkdirP s (dirnameStr w.path)) w.path
           (w.content ++ "\n"))) := rfl

theorem dirs_runWriteFile_dirname (w : WriteFile) (s : SysState) :
    (runWriteFile w s).dirs (dirnameStr w.path) = true := by
  rw [runWriteFile_eq, dirs_applyOwnerOpt, dirs_applyPermOpt]
  split_ifs
  · exact dirs_mkdirP_self s _
  · rw [dirs_writeContent]
    exact dirs_mkdirP_self s _

theorem getContent_runWriteFile (w : WriteFile) (s : SysState) :
    getContent (runWriteFile w s) w.path =
      if (match getContent s w.path with
          | some c => sha256hex c
          | none => "") = w.content_hash
      then getContent s w.path
      else some (w.content ++ "\n") := by
  rw [runWriteFile_eq, getContent_applyOwnerOpt, getContent_applyPermOpt]
  split_ifs
  · exact getContent_mkdirP s _ _
  · exact getContent_writeContent_same _ _ _

/-- One round of the optional `chmod`/`chown` tail absorbs a second. -/
theorem permOwner_idem (po oo : Option String) (p : String) (s : SysState) :
    applyOwnerOpt oo p (applyPermOpt po p
      (applyOwnerOpt oo p (applyPermOpt po p s))) =
    applyOwnerOpt oo p (applyPermOpt po p s) := by
  cases po <;> cases oo <;>
    cases hf : s.files p <;>
    apply SysState.ext <;>
    simp [applyPermOpt, applyOwnerOpt, chmodFile, chownFile, hf, updFn_same,
      updFn_updFn]

theorem permOwner_absorb (w : WriteFile) (s : SysState) :
    applyOwnerOpt w.owner w.path (applyPermOpt w.permissions w.path
      (runWriteFile w s)) = runWriteFile w s := by
  rw [runWriteFile_eq w s]
  exact permOwner_idem _ _ _ _

theorem runWriteFile_idem (w : WriteFile) (s : SysState) :
    runWriteFile w (runWriteFile w s) = runWriteFile w s := by
  have hmk : mkdirP (runWriteFile w s) (dirnameStr w.path) =
      runWriteFile w s :=
    mkdirP_noop _ _ (dirs_runWriteFile_dirname w s)
  rw [runWriteFile_eq w (runWriteFile w s), hmk]
  by_cases h1 : (match getContent s w.path with
      | some c => sha256hex c
      | none => "") = w.content_hash
  · have hget := getContent_runWriteFile w s
    rw [if_pos h1] at hget
    rw [hget, if_pos h1]
    exact permOwner_absorb w s
  · have hget := getContent_runWriteFile w s
    rw [if_neg h1] at hget
    rw [hget]
    by_cases h2 : sha256hex (w.content ++ "\n") = w.content_hash
    · rw [if_pos h2]
      exact permOwner_absorb w s
    · rw [if_neg h2]
      obtain ⟨f, hf, hfc⟩ :
          ∃ f, (runWriteFile w s).files w.path = some f ∧
            f.content = w.content ++ "\n" := by
        unfold getContent at hget
        exact Option.map_eq_some'.mp hget
      rw [writeContent_noop _ _ _ f hf hfc]
      exact permOwner_absorb w s

/-! ### Idempotence of `EnsureUser` -/

theorem sudoers_ne_auth (n : String) : sudoersPath n ≠ authKeysPath n := by
  intro h
  have e1 : (sudoersPath n).data[1]? = some 'e' := rfl
  have e2 : (authKeysPath n).data[1]? = some 'h' := rfl
  rw [h, e2] at e1
  exact absurd e1 (by decide)

/-- One key-loop iteration only ever touches the `files` component. -/
theorem appendKey_eq_files (n : String) (s : SysState) (k : String) :
    appendKeyIfAbsent n s k =
      { s with files := (appendKeyIfAbsent n s k).files } := by
  unfold appendKeyIfAbsent appendContent
  split_ifs <;> rfl

theorem files_foldKeys_other (n : String) (keys : List String) (s : SysState)
    (q : String) (hq : q ≠ authKeysPath n) :
    (keys.foldl (appendKeyIfAbsent n) s).files q = s.files q := by
  induction keys generalizing s with
  | nil => rfl
  | cons k ks ih =>
    show (ks.foldl _ (appendKeyIfAbsent n s k)).files q = _
    rw [ih]
    unfold appendKeyIfAbsent appendContent
    split_ifs <;> simp [updFn, hq]

theorem files_chownRec (s : SysState) (p o : String) :
    (chownRec s p o).files = s.files := rfl

theorem getContent_chownRec (s : SysState) (p o q : String) :
    getContent (chownRec s p o) q = getContent s q := rfl

theorem dirs_chownRec (s : SysState) (p o : String) :
    (chownRec s p o).dirs = s.dirs := rfl

theorem dirs_chmodFile (s : SysState) (p m : String) :
    (chmodFile s p m).dirs = s.dirs := rfl

theorem dirs_chmodDir (s : SysState) (p m : String) :
    (chmodDir s p m).dirs = s.dirs := rfl

theorem dirPerms_chownRec (s : SysState) (p o : String) :
    (chownRec s p o).dirPerms = s.dirPerms := rfl

theorem dirPerms_chmodFile (s : SysState) (p m : String) :
    (chmodFile s p m).dirPerms = s.dirPerms := rfl

theorem dirs_foldKeys (n : String) (keys : List String) (s : SysState) :
    (keys.foldl (appendKeyIfAbsent n) s).dirs = s.dirs := by
  induction keys generalizing s with
  | nil => rfl
  | cons k ks ih =>
    show (ks.foldl _ (appendKeyIfAbsent n s k)).dirs = s.dirs
    rw [ih]
    exact (congrArg SysState.dirs (appendKey_eq_files n s k)).trans rfl

theorem dirPerms_foldKeys (n : String) (keys : List String) (s : SysState) :
    (keys.foldl (appendKeyIfAbsent n) s).dirPerms = s.dirPerms := by
  induction keys generalizing s with
  | nil => rfl
  | cons k ks ih =>
    show (ks.foldl _ (appendKeyIfAbsent n s k)).dirPerms = s.dirPerms
    rw [ih]
    exact (congrArg SysState.dirPerms (appendKey_eq_files n s k)).trans rfl

theorem users_foldKeys (n : String) (keys : List String) (s : SysState) :
    (keys.foldl (appendKeyIfAbsent n) s).users = s.users := by
  induction keys generalizing s with
  | nil => rfl
  | cons k ks ih =>
    show (ks.foldl _ (appendKeyIfAbsent n s k)).users = s.users
    rw [ih]
    exact (congrArg SysState.users (appendKey_eq_files n s k)).trans rfl

theorem sysGroups_foldKeys (n : String) (keys : List String) (s : SysState) :
    (keys.foldl (appendKeyIfAbsent n) s).sysGroups = s.sysGroups := by
  induction keys generalizing s with
  | nil => rfl
  | cons k ks ih =>
    show (ks.foldl _ (appendKeyIfAbsent n s k)).sysGroups = s.sysGroups
    rw [ih]
    exact (congrArg SysState.sysGroups (appendKey_eq_files n s k)).trans rfl

theorem groupMembers_foldKeys (n : String) (keys : List String) (s : SysState) :
    (keys.foldl (appendKeyIfAbsent n) s).groupMembers = s.groupMembers := by
  induction keys generalizing s with
  | nil => rfl
  | cons k ks ih =>
    show (ks.foldl _ (appendKeyIfAbsent n s k)).groupMembers = s.groupMembers
    rw [ih]
    exact (congrArg SysState.groupMembers (appendKey_eq_files n s k)).trans rfl

theorem users_chownRec (s : SysState) (p o : String) :
    (chownRec s p o).users = s.users := rfl

theorem users_chmodFile (s : SysState) (p m : String) :
    (chmodFile s p m).users = s.users := rfl

theorem users_chmodDir (s : SysState) (p m : String) :
    (chmodDir s p m).users = s.users := rfl

theorem users_mkdirP (s : SysState) (p : String) :
    (mkdirP s p).users = s.users := rfl

theorem sysGroups_chownRec (s : SysState) (p o : String) :
    (chownRec s p o).sysGroups = s.sysGroups := rfl

theorem sysGroups_chmodFile (s : SysState) (p m : String) :
    (chmodFile s p m).sysGroups = s.sysGroups := rfl

theorem sysGroups_chmodDir (s : SysState) (p m : String) :
    (chmodDir s p m).sysGroups = s.sysGroups := rfl

theorem sysGroups_mkdirP (s : SysState) (p : String) :
    (mkdirP s p).sysGroups = s.sysGroups := rfl

theorem groupMembers_chownRec (s : SysState) (p o : String) :
    (chownRec s p o).groupMembers = s.groupMembers := rfl

theorem groupMembers_chmodFile (s : SysState) (p m : String) :
    (chmodFile s p m).groupMembers = s.groupMembers := rfl

theorem groupMembers_chmodDir (s : SysState) (p m : String) :
    (chmodDir s p m).groupMembers = s.groupMembers := rfl

theorem groupMembers_mkdirP (s : SysState) (p : String) :
    (mkdirP s p).groupMembers = s.groupMembers := rfl

theorem getContent_appendContent_same (s : SysState) (p t : String) :
    getContent (appendContent s p t) p =
      some ((getContent s p).getD "" ++ t) := by
  simp [getContent, appendContent, updFn_same]

theorem appendKey_contains_self (n : String) (s : SysState) (k : String) :
    strContains ((getContent (appendKeyIfAbsent n s k)
      (authKeysPath n)).getD "") k = true := by
  unfold appendKeyIfAbsent
  split_ifs with h
  · exact h
  · rw [getContent_appendContent_same]
    simp only [Option.getD_some]
    rw [← string_append_assoc]
    exact strContains_of_parts _ k "\n"

theorem appendKey_mono (n : String) (s : SysState) (k x : String)
    (h : strContains ((getContent s (authKeysPath n)).getD "") x = true) :
    strContains ((getContent (appendKeyIfAbsent n s k)
      (authKeysPath n)).getD "") x = true := by
  unfold appendKeyIfAbsent
  split_ifs with hc
  · exact h
  · rw [getContent_appendContent_same]
    simp only [Option.getD_some]
    exact strContains_append_right _ _ _ h

theorem foldKeys_mono (n : String) (keys : List String) (s : SysState)
    (x : String)
    (h : strContains ((getContent s (authKeysPath n)).getD "") x = true) :
    strContains ((getContent (keys.foldl (appendKeyIfAbsent n) s)
      (authKeysPath n)).getD "") x = true := by
  induction keys generalizing s with
  | nil => exact h
  | cons k ks ih => exact ih _ (appendKey_mono n s k x h)

theorem foldKeys_contains (n : String) (keys : List String) (s : SysState) :
    ∀ k ∈ keys, strContains ((getContent (keys.foldl (appendKeyIfAbsent n) s)
      (authKeysPath n)).getD "") k = true := by
  induction keys generalizing s with
  | nil => intro k hk; simp at hk
  | cons k0 ks ih =>
    intro k hk
    show strContains ((getContent (ks.foldl (appendKeyIfAbsent n)
      (appendKeyIfAbsent n s k0)) (authKeysPath n)).getD "") k = true
    rcases List.mem_cons.mp hk with h | h
    · subst h
      exact foldKeys_mono n ks _ k (appendKey_contains_self n s k)
    · exact ih _ k h

theorem appendKeyIfAbsent_noop (n : String) (s : SysState) (k : String)
    (h : strContains ((getContent s (authKeysPath n)).getD "") k = true) :
    appendKeyIfAbsent n s k = s := by
  unfold appendKeyIfAbsent
  rw [if_pos h]

theorem foldKeys_noop (n : String) (keys : List String) (s : SysState)
    (h : ∀ k ∈ keys, strContains ((getContent s
      (authKeysPath n)).getD "") k = true) :
    keys.foldl (appendKeyIfAbsent n) s = s := by
  induction keys with
  | nil => rfl
  | cons k ks ih =>
    show ks.foldl _ (appendKeyIfAbsent n s k) = s
    rw [appendKeyIfAbsent_noop n s k (h k (List.mem_cons_self _ _))]
    exact ih (fun k2 hk2 => h k2 (List.mem_cons_of_mem _ hk2))

theorem perms_after_chmod (s : SysState) (p m : String) :
    (chmodFile s p m).files p =
      (s.files p).map (fun f => ⟨f.content, some m, f.owner⟩) := by
  simp [chmodFile, updFn_same]

/-- The SSH block of `EnsureUser` is idempotent on states. -/
theorem ensureUserSsh_idem (u : EnsureUser) (x : SysState) :
    ensureUserSsh u (ensureUserSsh u x) = ensureUserSsh u x := by
  by_cases hk : u.ssh_keys.isEmpty = true
  · have he : ∀ y, ensureUserSsh u y = y := by
      intro y
      unfold ensureUserSsh
      rw [if_pos hk]
    rw [he, he]
  · have hne : ∀ y, ensureUserSsh u y =
        chownRec
          (chmodFile
            (u.ssh_keys.foldl (appendKeyIfAbsent u.name)
              (chmodDir (mkdirP y (sshDirPath u.name))
                (sshDirPath u.name) "700"))
            (authKeysPath u.name) "600")
          (sshDirPath u.name) (u.name ++ ":" ++ u.name) := by
      intro y
      unfold ensureUserSsh
      rw [if_neg hk]
    have f1 : (ensureUserSsh u x).dirs (sshDirPath u.name) = true := by
      rw [hne x, dirs_chownRec, dirs_chmodFile, dirs_foldKeys, dirs_chmodDir]
      exact dirs_mkdirP_self x _
    have f2 : (ensureUserSsh u x).dirPerms (sshDirPath u.name) =
        some "700" := by
      rw [hne x, dirPerms_chownRec, dirPerms_chmodFile, dirPerms_foldKeys]
      simp [chmodDir, updFn_same]
    have f5 : (ensureUserSsh u x).recOwners (sshDirPath u.name) =
        some (u.name ++ ":" ++ u.name) := by
      rw [hne x]
      simp [chownRec, updFn_same]
    have f3 : ∀ k ∈ u.ssh_keys, strContains
        ((getContent (ensureUserSsh u x) (authKeysPath u.name)).getD "")
        k = true := by
      intro k hk2
      rw [hne x, getContent_chownRec, getContent_chmodFile]
      exact foldKeys_contains u.name u.ssh_keys _ k hk2
    have f4 : ∀ f, (ensureUserSsh u x).files (authKeysPath u.name) = some f →
        f.perms = some "600" := by
      intro f hf
      rw [hne x, files_chownRec, perms_after_chmod] at hf
      obtain ⟨g, hg, hgf⟩ := Option.map_eq_some'.mp hf
      rw [← hgf]
    rw [hne (ensureUserSsh u x)]
    rw [mkdirP_noop _ _ f1]
    rw [chmodDir_noop _ _ _ f2]
    rw [foldKeys_noop _ _ _ f3]
    cases hf : (ensureUserSsh u x).files (authKeysPath u.name) with
    | none =>
      rw [chmodFile_noop_none _ _ _ hf]
      exact chownRec_noop _ _ _ f5
    | some f =>
      rw [chmodFile_noop _ _ _ f hf (f4 f hf)]
      exact chownRec_noop _ _ _ f5

theorem ensureUserCreate_post (u : EnsureUser) (s : SysState) :
    ((ensureUserCreate u s).users u.name).isSome = true := by
  unfold ensureUserCreate
  split_ifs with h
  · exact h
  · simp [addUser, updFn_same]

theorem ensureUserCreate_noop (u : EnsureUser) (s : SysState)
    (h : (s.users u.name).isSome = true) : ensureUserCreate u s = s := by
  unfold ensureUserCreate
  rw [if_pos h]

theorem users_ensureUserGroups (u : EnsureUser) (s : SysState) :
    (ensureUserGroups u s).users = s.users := by
  unfold ensureUserGroups
  split_ifs <;> rfl

theorem users_ensureUserSudo (u : EnsureUser) (s : SysState) :
    (ensureUserSudo u s).users = s.users := by
  unfold ensureUserSudo
  cases hs : u.«sudo» <;> rfl

theorem users_ensureUserSsh (u : EnsureUser) (s : SysState) :
    (ensureUserSsh u s).users = s.users := by
  unfold ensureUserSsh
  split_ifs with h
  · rfl
  · rw [users_chownRec, users_chmodFile, users_foldKeys, users_chmodDir,
      users_mkdirP]

theorem sysGroups_ensureUserCreate (u : EnsureUser) (s : SysState) :
    (ensureUserCreate u s).sysGroups = s.sysGroups := by
  unfold ensureUserCreate
  split_ifs <;> rfl

theorem sysGroups_ensureUserGroups (u : EnsureUser) (s : SysState) :
    (ensureUserGroups u s).sysGroups = s.sysGroups := by
  unfold ensureUserGroups
  split_ifs <;> rfl

theorem sysGroups_ensureUserSudo (u : EnsureUser) (s : SysState) :
    (ensureUserSudo u s).sysGroups = s.sysGroups := by
  unfold ensureUserSudo
  cases hs : u.«sudo» <;> rfl

theorem sysGroups_ensureUserSsh (u : EnsureUser) (s : SysState) :
    (ensureUserSsh u s).sysGroups = s.sysGroups := by
  unfold ensureUserSsh
  split_ifs with h
  · rfl
  · rw [sysGroups_chownRec, sysGroups_chmodFile, sysGroups_foldKeys,
      sysGroups_chmodDir, sysGroups_mkdirP]

theorem groupMembers_ensureUserSudo (u : EnsureUser) (s : SysState) :
    (ensureUserSudo u s).groupMembers = s.groupMembers := by
  unfold ensureUserSudo
  cases hs : u.«sudo» <;> rfl

theorem groupMembers_ensureUserSsh (u : EnsureUser) (s : SysState) :
    (ensureUserSsh u s).groupMembers = s.groupMembers := by
  unfold ensureUserSsh
  split_ifs with h
  · rfl
  · rw [groupMembers_chownRec, groupMembers_chmodFile, groupMembers_foldKeys,
      groupMembers_chmodDir, groupMembers_mkdirP]

theorem addGroupsBulk_mem (u : EnsureUser) (s : SysState) (g : String)
    (hg : g ∈ u.groups) (hs : s.sysGroups g = true) :
    (addGroupsBulk u s).groupMembers g u.name = true := by
  simp [addGroupsBulk, hg, hs]

theorem ensureUserGroups_noop (u : EnsureUser) (t : SysState)
    (h : ∀ g, g ∈ u.groups → t.sysGroups g = true →
      t.groupMembers g u.name = true) :
    ensureUserGroups u t = t := by
  unfold ensureUserGroups
  split_ifs with he
  · rfl
  · unfold addGroupsBulk
    have hfn : (fun g usr =>
        if usr = u.name ∧ g ∈ u.groups ∧ t.sysGroups g = true then true
        else t.groupMembers g usr) = t.groupMembers := by
      funext g usr
      split_ifs with hc
      · rw [hc.1]
        exact (h g hc.2.1 hc.2.2).symm
      · rfl
    rw [hfn]

theorem ensureUserSudo_post (u : EnsureUser) (s : SysState) (sd : String)
    (hsd : u.«sudo» = some sd) :
    ∃ f, (ensureUserSudo u s).files (sudoersPath u.name) = some f ∧
      f.content = u.name ++ " " ++ sd ++ "\n" ∧ f.perms = some "440" := by
  unfold ensureUserSudo
  rw [hsd]
  refine ⟨⟨u.name ++ " " ++ sd ++ "\n", some "440",
    fileOwnerAt s (sudoersPath u.name)⟩, ?_, rfl, rfl⟩
  simp [chmodFile, writeContent, updFn_same]

theorem ensureUserSudo_noop (u : EnsureUser) (t : SysState)
    (h : ∀ sd, u.«sudo» = some sd →
      ∃ f, t.files (sudoersPath u.name) = some f ∧
        f.content = u.name ++ " " ++ sd ++ "\n" ∧ f.perms = some "440") :
    ensureUserSudo u t = t := by
  unfold ensureUserSudo
  cases hsd : u.«sudo» with
  | none => rfl
  | some sd =>
    show chmodFile (writeContent t (sudoersPath u.name)
      (u.name ++ " " ++ sd ++ "\n")) (sudoersPath u.name) "440" = t
    obtain ⟨f, hf, hc, hp⟩ := h sd hsd
    rw [writeContent_noop t _ _ f hf hc]
    exact chmodFile_noop t _ _ f hf hp

theorem files_ensureUserSsh_other (u : EnsureUser) (s : SysState) (q : String)
    (hq : q ≠ authKeysPath u.name) :
    (ensureUserSsh u s).files q = s.files q := by
  unfold ensureUserSsh
  split_ifs with h
  · rfl
  · rw [files_chownRec, files_chmodFile_other _ _ _ _ hq,
      files_foldKeys_other _ _ _ _ hq]
    rfl

theorem runEnsureUser_idem (u : EnsureUser) (s : SysState) :
    runEnsureUser u (runEnsureUser u s) = runEnsureUser u s := by
  unfold runEnsureUser
  set t := ensureUserSsh u (ensureUserSudo u (ensureUserGroups u
    (ensureUserCreate u s))) with ht
  have hA : (t.users u.name).isSome = true := by
    rw [ht, users_ensureUserSsh, users_ensureUserSudo, users_ensureUserGroups]
    exact ensureUserCreate_post u s
  rw [ensureUserCreate_noop u t hA]
  have hB1 : t.sysGroups = s.sysGroups := by
    rw [ht, sysGroups_ensureUserSsh, sysGroups_ensureUserSudo,
      sysGroups_ensureUserGroups, sysGroups_ensureUserCreate]
  have hB2 : t.groupMembers =
      (ensureUserGroups u (ensureUserCreate u s)).groupMembers := by
    rw [ht, groupMembers_ensureUserSsh, groupMembers_ensureUserSudo]
  have hB : ∀ g, g ∈ u.groups → t.sysGroups g = true →
      t.groupMembers g u.name = true := by
    intro g hg hsg
    rw [hB2]
    rw [hB1] at hsg
    unfold ensureUserGroups
    have hne2 : ¬u.groups.isEmpty = true := by
      cases hgl : u.groups with
      | nil => rw [hgl] at hg; simp at hg
      | cons a l => simp
    rw [if_neg hne2]
    have hsg2 : (ensureUserCreate u s).sysGroups g = true := by
      rw [sysGroups_ensureUserCreate]
      exact hsg
    exact addGroupsBulk_mem u _ g hg hsg2
  rw [ensureUserGroups_noop u t hB]
  have hC : ∀ sd, u.«sudo» = some sd →
      ∃ f, t.files (sudoersPath u.name) = some f ∧
        f.content = u.name ++ " " ++ sd ++ "\n" ∧ f.perms = some "440" := by
    intro sd hsd
    rw [ht, files_ensureUserSsh_other u _ _ (sudoers_ne_auth u.name)]
    exact ensureUserSudo_post u _ sd hsd
  rw [ensureUserSudo_noop u t hC]
  rw [ht]
  exact ensureUserSsh_idem u _

/-! ### The C1 dispatcher, counterexample and amended law -/

/-- Side condition under which a step's commands are idempotent: trivial
for the seven structured variants; for `RunCommand` (whose payload is an
opaque caller-supplied shell command) the command itself must be
idempotent on states. -/
def stepIdemHyp (env : CmdEnv) : StepV → Prop
  | StepV.runCommand r => ∀ s, env.exec r.command (env.exec r.command s) =
      env.exec r.command s
  | _ => True

theorem runStep_idem (env : CmdEnv) (st : StepV) (s : SysState)
    (h : stepIdemHyp env st) :
    runStep env st (runStep env st s) = runStep env st s := by
  cases st with
  | writeFile w => exact runWriteFile_idem w s
  | installPackage p => exact runInstallPackage_idem p s
  | installDebFromUrl d => exact runInstallDeb_idem d s
  | ensureDirectory d => exact runEnsureDirectory_idem d s
  | ensureService sv => exact runEnsureService_idem sv s
  | ensureUser u => exact runEnsureUser_idem u s
  | ensureFirewall f => exact runEnsureFirewall_idem f s
  | runCommand r => exact runRunCommand_idem env r s h

/-- The empty machine: no files, directories, packages, users or firewall
state. -/
def emptyState : SysState :=
  ⟨fun _ => none, fun _ => false, fun _ => none, fun _ => none,
   fun _ => none, [], fun _ => false, false, fun _ => none, fun _ => false,
   fun _ _ => false, fun _ => false, fun _ => false, false, "deny", "allow",
   fun _ => false⟩

/-- Interpretation of the counterexample commands: the step command
appends `"x"` to `/tmp/c` (e.g. `printf x >> /tmp/c`), the guard succeeds
when `/tmp/c` holds exactly `"xx"`
(e.g. `[ "$(cat /tmp/c)" = "xx" ]`). -/
def cexEnv : CmdEnv :=
  ⟨fun _ s => writeContent s "/tmp/c" (((getContent s "/tmp/c").getD "") ++ "x"),
   fun _ s => ((getContent s "/tmp/c").getD "") == "xx"⟩

/-- The `RunCommand` step driving the counterexample. -/
def cexCmd : RunCommand :=
  ⟨"append a marker byte", "printf x >> /tmp/c",
   some "[ \"$(cat /tmp/c)\" = \"xx\" ]"⟩

/-- Counterexample to C1 as stated: there is a step (a `RunCommand` with a
non-idempotent command) and a starting state on which running the rendered
commands twice flips the guard from failure to success: one run appends a
single `"x"` (guard fails), a second run appends another (guard now
succeeds). -/
theorem step_idempotence_cex :
    checkStep cexEnv (StepV.runCommand cexCmd)
        (runStep cexEnv (StepV.runCommand cexCmd)
          (runStep cexEnv (StepV.runCommand cexCmd) emptyState)) ≠
      checkStep cexEnv (StepV.runCommand cexCmd)
        (runStep cexEnv (StepV.runCommand cexCmd) emptyState) := by
  decide

/-- C1 (amended). For the seven structured step variants the idempotence
law holds unconditionally: running the rendered commands twice leaves the
guard command with the same result as running them once, over every
interpretation of opaque commands and every starting state. For
`RunCommand` it holds provided the caller-supplied command is itself
idempotent on states (`stepIdemHyp`); `step_idempotence_cex` shows the
law is otherwise violated. -/
theorem step_idempotence_amended (env : CmdEnv) (st : StepV) (s : SysState)
    (h : stepIdemHyp env st) :
    checkStep env st (runStep env st (runStep env st s)) =
      checkStep env st (runStep env st s) := by
  rw [runStep_idem env st s h]

/-- Witness: the amended law applied to a concrete `EnsureDirectory` step
(whose side condition is trivial) on the empty machine. -/
theorem step_idempotence_amended_witness :
    checkStep cexEnv (StepV.ensureDirectory (EnsureDirectory.new "/opt/app"))
        (runStep cexEnv (StepV.ensureDirectory (EnsureDirectory.new "/opt/app"))
          (runStep cexEnv
            (StepV.ensureDirectory (EnsureDirectory.new "/opt/app"))
            emptyState)) =
      checkStep cexEnv (StepV.ensureDirectory (EnsureDirectory.new "/opt/app"))
        (runStep cexEnv (StepV.ensureDirectory (EnsureDirectory.new "/opt/app"))
          emptyState) :=
  step_idempotence_amended cexEnv
    (StepV.ensureDirectory (EnsureDirectory.new "/opt/app")) emptyState
    trivial

end TenguInit
